import Mathlib

/-!
Verification development for the atm10 Minecraft bridge / votifier service.

The Python sources under `discord_bot/` and `votifier_service/` are shallowly
embedded: pure functions become Lean functions, stateful routines become
explicit state passing, fallible code returns `Except`/`Option`, and wall-clock
times are modelled as rationals.  Each embedded definition is named after the
Python symbol it translates and is annotated with the file it comes from.
-/

set_option maxRecDepth 4000

/-! ## Common Python-style string helpers

Python `str` operations used by the sources, modelled over `List Char`.
The character classes are the ASCII fragments of Python's Unicode classes
(`\d`, `\w`, `\s`); every string the services actually handle is ASCII.
-/

/-- ASCII fragment of Python's regex class `\d`. -/
def pyDigit (c : Char) : Bool := '0' ≤ c && c ≤ '9'

/-- ASCII fragment of Python's regex class `\w` (`[A-Za-z0-9_]`). -/
def pyWord (c : Char) : Bool :=
  pyDigit c || ('a' ≤ c && c ≤ 'z') || ('A' ≤ c && c ≤ 'Z') || c = '_'

/-- ASCII fragment of Python's regex class `\s` / `str.strip` whitespace. -/
def pySpace (c : Char) : Bool :=
  c = ' ' || c = '\t' || c = '\n' || c = '\r' || c = '\x0b' || c = '\x0c'

/-- Python `str.strip()` from the right: drop trailing whitespace. -/
def dropTrailWs (l : List Char) : List Char :=
  (l.reverse.dropWhile pySpace).reverse

/-- Python `str.strip()`: drop leading and trailing whitespace. -/
def pyStrip (l : List Char) : List Char :=
  dropTrailWs (l.dropWhile pySpace)

/-- Python `str.lower()`: structural lower-casing over the character data
(ASCII behaviour of `Char.toLower`; matches CPython on ASCII input). -/
def pyLower (s : String) : String := String.mk (s.data.map Char.toLower)

/-- Does `l` start with `w` (Python `str.startswith` on char lists)? -/
def startsWithL : List Char → List Char → Bool
  | _, [] => true
  | [], _ :: _ => false
  | c :: cs, d :: ds => c = d && startsWithL cs ds

/-- Python `needle in hay` substring test. -/
def hasSubstr : List Char → List Char → Bool
  | [], needle => needle.isEmpty
  | c :: cs, needle => startsWithL (c :: cs) needle || hasSubstr cs needle

/-- Python `hay_string in response` on `String`s (used for RCON responses). -/
def strContains (hay needle : String) : Bool := hasSubstr hay.toList needle.toList

/-- Python `str.split("\n")`: `""` gives `[""]`, separators produce empty parts. -/
def splitNl : List Char → List (List Char)
  | [] => [[]]
  | c :: cs =>
    if c = '\n' then [] :: splitNl cs
    else
      match splitNl cs with
      | [] => [[c]]
      | p :: ps => (c :: p) :: ps

/-- Python `str.split(",")`. -/
def splitComma : List Char → List (List Char)
  | [] => [[]]
  | c :: cs =>
    if c = ',' then [] :: splitComma cs
    else
      match splitComma cs with
      | [] => [[c]]
      | p :: ps => (c :: p) :: ps

/-! ## Vote deduplication (`votifier_service/pending_rewards.py`, class `VoteDeduplication`)

The internal Python dict `self._votes : dict[str, float]` mapping
`"username:service"` (lower-cased) to the last-seen `time.time()` is modelled
as a function from keys to optional timestamps; timestamps are rationals.
-/

namespace VoteDeduplication

/-- `DEDUP_WINDOW_SECONDS = 3600`. -/
def DEDUP_WINDOW_SECONDS : ℚ := 3600

/-- The `_votes` dict: key `"username:service"` → last-seen timestamp. -/
def Votes : Type := String → Option ℚ

/-- `_make_key`: `f"{username.lower()}:{service.lower()}"`. -/
def make_key (username service : String) : String :=
  pyLower username ++ ":" ++ pyLower service

/-- `_cleanup_old_entries`: keep entries with `v > now - DEDUP_WINDOW_SECONDS`. -/
def cleanup_old_entries (votes : Votes) (now : ℚ) : Votes :=
  fun k =>
    match votes k with
    | some v => if v > now - DEDUP_WINDOW_SECONDS then some v else none
    | none => none

/-- `is_duplicate`: prune old entries (the pruned dict persists), then test
membership of the key. Returns the answer and the updated dict. -/
def is_duplicate (votes : Votes) (username service : String) (now : ℚ) :
    Bool × Votes :=
  let votes' := cleanup_old_entries votes now
  ((votes' (make_key username service)).isSome, votes')

/-- `mark_processed`: store the key with the current time. -/
def mark_processed (votes : Votes) (username service : String) (now : ℚ) : Votes :=
  fun k => if k = make_key username service then some now else votes k

/-- A dedup-store operation in a trace: a duplicate query or a mark. -/
inductive Op where
  | query (username service : String) (now : ℚ)
  | mark (username service : String) (now : ℚ)

/-- Timestamp at which an operation runs. -/
def Op.time : Op → ℚ
  | .query _ _ now => now
  | .mark _ _ now => now

/-- Run a trace of dedup operations, threading the `_votes` dict. -/
def runOps (votes : Votes) : List Op → Votes
  | [] => votes
  | .query u s now :: rest => runOps (is_duplicate votes u s now).2 rest
  | .mark u s now :: rest => runOps (mark_processed votes u s now) rest

end VoteDeduplication

namespace VoteDeduplication

theorem cleanup_key (votes : Votes) (now : ℚ) (k : String) :
    cleanup_old_entries votes now k =
      match votes k with
      | some v => if v > now - DEDUP_WINDOW_SECONDS then some v else none
      | none => none := rfl

/-- Once a key is absent it stays absent along a trace that never marks it. -/
theorem none_stays :
    ∀ (ops : List Op) (votes : Votes) {u s : String},
      (∀ u' s' t', Op.mark u' s' t' ∈ ops → make_key u' s' ≠ make_key u s) →
      votes (make_key u s) = none →
      runOps votes ops (make_key u s) = none := by
  intro ops
  induction ops with
  | nil => intro votes u s _ hv; exact hv
  | cons op rest ih =>
    intro votes u s hmark hv
    cases op with
    | query u' s' now =>
      have hv' : (is_duplicate votes u' s' now).2 (make_key u s) = none := by
        simp only [is_duplicate, cleanup_old_entries, hv]
      exact ih _ (fun a b c hm => hmark a b c (List.mem_cons_of_mem _ hm)) hv'
    | mark u' s' now =>
      have hne : make_key u' s' ≠ make_key u s :=
        hmark u' s' now (List.mem_cons_self _ _)
      have hv' : mark_processed votes u' s' now (make_key u s) = none := by
        simp only [mark_processed]
        rw [if_neg]
        · exact hv
        · exact fun h => hne h.symm
      exact ih _ (fun a b c hm => hmark a b c (List.mem_cons_of_mem _ hm)) hv'

/-- Invariant: after marking `(u, s)` at time `t` and running any trace whose
operations never re-mark the same key and whose times stay at most `tq`,
the key either still carries timestamp `t` or was pruned by a query at a
time that forces `t + 3600 ≤ tq`. -/
theorem runOps_key_invariant (u s : String) (t tq : ℚ) :
    ∀ (ops : List Op) (votes : Votes),
      (∀ op ∈ ops, op.time ≤ tq) →
      (∀ u' s' t', Op.mark u' s' t' ∈ ops → make_key u' s' ≠ make_key u s) →
      votes (make_key u s) = some t →
      runOps votes ops (make_key u s) = some t ∨
        (runOps votes ops (make_key u s) = none ∧ t + 3600 ≤ tq) := by
  intro ops
  induction ops with
  | nil =>
    intro votes _ _ hv
    exact Or.inl hv
  | cons op rest ih =>
    intro votes htime hmark hv
    cases op with
    | query u' s' now =>
      have hnow : now ≤ tq := htime _ (List.mem_cons_self _ _)
      by_cases hkeep : t > now - DEDUP_WINDOW_SECONDS
      · have hv' : (is_duplicate votes u' s' now).2 (make_key u s) = some t := by
          simp only [is_duplicate, cleanup_old_entries, hv, hkeep, if_pos]
        exact ih _ (fun o ho => htime o (List.mem_cons_of_mem _ ho))
          (fun a b c hm => hmark a b c (List.mem_cons_of_mem _ hm)) hv'
      · -- the entry is pruned now, and it can never come back
        have hv' : (is_duplicate votes u' s' now).2 (make_key u s) = none := by
          simp only [is_duplicate, cleanup_old_entries, hv]
          simp [hkeep]
        have hle : t + 3600 ≤ tq := by
          have : ¬ (now - DEDUP_WINDOW_SECONDS < t) := hkeep
          have h1 : t ≤ now - 3600 := by
            simpa [DEDUP_WINDOW_SECONDS] using le_of_not_lt this
          linarith
        refine Or.inr ⟨?_, hle⟩
        exact none_stays rest _ (fun a b c hm => hmark a b c (List.mem_cons_of_mem _ hm)) hv'
    | mark u' s' now =>
      have hne : make_key u' s' ≠ make_key u s :=
        hmark u' s' now (List.mem_cons_self _ _)
      have hv' : mark_processed votes u' s' now (make_key u s) = some t := by
        simp only [mark_processed]
        rw [if_neg]
        · exact hv
        · exact fun h => hne h.symm
      exact ih _ (fun o ho => htime o (List.mem_cons_of_mem _ ho))
        (fun a b c hm => hmark a b c (List.mem_cons_of_mem _ hm)) hv'

end VoteDeduplication

/-- C5: after `mark_processed(u, s)` at time `t`, and any intervening queries
and marks of other lowercase pairs at monotone times between `t` and `t'`,
`is_duplicate(u', s')` at `t'` with `lower u' = lower u` and
`lower s' = lower s` returns true exactly when `t' < t + 3600`: it holds
throughout `t ≤ t' < t + 3600` and no longer holds at `t' ≥ t + 3600`. -/
theorem claim_C5_dedup_window
    (votes : VoteDeduplication.Votes) (u s u' s' : String) (t t' : ℚ)
    (ops : List VoteDeduplication.Op)
    (hu : pyLower u' = pyLower u) (hs : pyLower s' = pyLower s)
    (htime : ∀ op ∈ ops, t ≤ VoteDeduplication.Op.time op ∧
        VoteDeduplication.Op.time op ≤ t')
    (hmark : ∀ u₂ s₂ t₂, VoteDeduplication.Op.mark u₂ s₂ t₂ ∈ ops →
        VoteDeduplication.make_key u₂ s₂ ≠ VoteDeduplication.make_key u s) :
    (VoteDeduplication.is_duplicate
        (VoteDeduplication.runOps (VoteDeduplication.mark_processed votes u s t) ops)
        u' s' t').1 = decide (t' < t + 3600) := by
  classical
  have hkey : VoteDeduplication.make_key u' s' = VoteDeduplication.make_key u s := by
    simp [VoteDeduplication.make_key, hu, hs]
  have hstart : VoteDeduplication.mark_processed votes u s t
      (VoteDeduplication.make_key u s) = some t := by
    simp [VoteDeduplication.mark_processed]
  have hinv := VoteDeduplication.runOps_key_invariant u s t t' ops
    (VoteDeduplication.mark_processed votes u s t)
    (fun op ho => (htime op ho).2) hmark hstart
  simp only [VoteDeduplication.is_duplicate, hkey]
  rcases hinv with hsome | ⟨hnone, hle⟩
  · rw [VoteDeduplication.cleanup_key, hsome]
    by_cases hlt : t' < t + 3600
    · have : t > t' - VoteDeduplication.DEDUP_WINDOW_SECONDS := by
        simp only [VoteDeduplication.DEDUP_WINDOW_SECONDS]; linarith
      simp [this, hlt]
    · have : ¬ t > t' - VoteDeduplication.DEDUP_WINDOW_SECONDS := by
        simp only [VoteDeduplication.DEDUP_WINDOW_SECONDS]
        push_neg
        push_neg at hlt
        linarith
      simp [this, hlt]
  · rw [VoteDeduplication.cleanup_key, hnone]
    have : ¬ t' < t + 3600 := by linarith
    simp [this]

/-- Witness for C5 at a concrete trace: mark Steve/PMC at time 0, query
steve/pmc at time 10 inside the window. -/
theorem claim_C5_dedup_window_witness :
    (VoteDeduplication.is_duplicate
        (VoteDeduplication.runOps
          (VoteDeduplication.mark_processed (fun _ => none) "Steve" "PMC" 0) [])
        "steve" "pmc" 10).1 = true := by
  have h := claim_C5_dedup_window (fun _ => none) "Steve" "PMC" "steve" "pmc" 0 10 []
    (by decide) (by decide) (by simp) (by simp)
  rw [h]
  norm_num

/-! ## Pending-reward store (`votifier_service/pending_rewards.py`, class `PendingRewardsStore`)

`self._rewards : dict[str, list[dict]]` keyed by lower-cased username is
modelled as an association list preserving Python's dict insertion order.
The JSON file `data/pending_rewards.json` holds exactly the serialized map
(`json.dump`/`json.load` round-trip on str/bool dicts and lists is exact),
so the on-disk state is modelled as `Option RewardsMap` (`none` = no file).
`_save` is wrapped in `try/except`, so a failed write leaves the previous
file contents and raises nothing; the `write_ok` flag selects that branch.
-/

namespace PendingRewardsStore

/-- One entry of a player's reward list, as produced by `asdict(PendingReward)`. -/
structure Reward where
  username : String
  service : String
  timestamp : String
  claimed : Bool
deriving DecidableEq, Repr

/-- The in-memory `_rewards` dict (insertion-ordered association list). -/
abbrev RewardsMap := List (String × List Reward)

/-- Python `key in dict`. -/
def dictHas (m : RewardsMap) (k : String) : Bool :=
  match m with
  | [] => false
  | (k', _) :: rest => k' = k || dictHas rest k

/-- Python `dict.get(key, [])`. -/
def dictGetD (m : RewardsMap) (k : String) : List Reward :=
  match m with
  | [] => []
  | (k', v) :: rest => if k' = k then v else dictGetD rest k

/-- Python `dict[key] = value` (overwrite in place, else append at the end). -/
def dictSet (m : RewardsMap) (k : String) (v : List Reward) : RewardsMap :=
  match m with
  | [] => [(k, v)]
  | (k', v') :: rest => if k' = k then (k, v) :: rest else (k', v') :: dictSet rest k v

/-- Python `del dict[key]`. -/
def dictDel (m : RewardsMap) (k : String) : RewardsMap :=
  match m with
  | [] => []
  | (k', v') :: rest => if k' = k then rest else (k', v') :: dictDel rest k

/-- `_save`: `json.dump(self._rewards, f)` inside `try/except`.  On success
the file holds the serialized map; on failure the error is logged and the
previous file contents remain. -/
def save (write_ok : Bool) (m : RewardsMap) (file : Option RewardsMap) :
    Option RewardsMap :=
  if write_ok then some m else file

/-- `_load`: missing file or parse failure yields an empty map. -/
def load (file : Option RewardsMap) : RewardsMap :=
  match file with
  | none => []
  | some m => m

/-- In-memory effect of `add_pending`: ensure the lower-cased key exists and
append a fresh unclaimed reward carrying the original username. -/
def add_pending_mem (username service timestamp : String) (m : RewardsMap) :
    RewardsMap :=
  let key := pyLower username
  dictSet m key (dictGetD m key ++ [⟨username, service, timestamp, false⟩])

/-- `add_pending`: mutate the map, then `_save`. -/
def add_pending (write_ok : Bool) (username service timestamp : String)
    (m : RewardsMap) (file : Option RewardsMap) : RewardsMap × Option RewardsMap :=
  let m' := add_pending_mem username service timestamp m
  (m', save write_ok m' file)

/-- `get_pending`: the unclaimed entries under the lower-cased key. -/
def get_pending (m : RewardsMap) (username : String) : List Reward :=
  (dictGetD m (pyLower username)).filter (fun r => !r.claimed)

/-- `get_pending_count`. -/
def get_pending_count (m : RewardsMap) (username : String) : Nat :=
  (get_pending m username).length

/-- In-memory effect of `claim_all`: mark every entry of the player's list as
claimed (Python mutates the dicts held in the list in place, so a missing
key leaves the map untouched). -/
def claim_all_mem (username : String) (m : RewardsMap) : RewardsMap :=
  let key := pyLower username
  if dictHas m key then
    dictSet m key ((dictGetD m key).map (fun r => { r with claimed := true }))
  else m

/-- `claim_all`: mark everything claimed, `_save`, and return the previously
unclaimed entries. -/
def claim_all (write_ok : Bool) (username : String) (m : RewardsMap)
    (file : Option RewardsMap) : RewardsMap × Option RewardsMap × List Reward :=
  let unclaimed := (dictGetD m (pyLower username)).filter (fun r => !r.claimed)
  let m' := claim_all_mem username m
  (m', save write_ok m' file, unclaimed)

/-- In-memory effect of `clear_claimed`: drop claimed entries, and drop the
key entirely when its list becomes empty.  No-op when the key is absent. -/
def clear_claimed_mem (username : String) (m : RewardsMap) : RewardsMap :=
  let key := pyLower username
  if dictHas m key then
    let kept := (dictGetD m key).filter (fun r => !r.claimed)
    if kept.isEmpty then dictDel m key else dictSet m key kept
  else m

/-- `clear_claimed`: guarded mutation; `_save` runs only when the key was
present (the `if username_lower in self._rewards` branch). -/
def clear_claimed (write_ok : Bool) (username : String) (m : RewardsMap)
    (file : Option RewardsMap) : RewardsMap × Option RewardsMap :=
  if dictHas m (pyLower username) then
    let m' := clear_claimed_mem username m
    (m', save write_ok m' file)
  else (m, file)

/-- A mutation of the store, as in the C8 round-trip claim. -/
inductive StoreOp where
  | add (username service timestamp : String)
  | claimAll (username : String)
  | clearClaimed (username : String)

/-- Run a sequence of mutations against the paired in-memory map and file. -/
def runStoreOps (write_ok : Bool) :
    RewardsMap × Option RewardsMap → List StoreOp → RewardsMap × Option RewardsMap
  | st, [] => st
  | (m, f), .add u s ts :: rest => runStoreOps write_ok (add_pending write_ok u s ts m f) rest
  | (m, f), .claimAll u :: rest =>
      let r := claim_all write_ok u m f
      runStoreOps write_ok (r.1, r.2.1) rest
  | (m, f), .clearClaimed u :: rest => runStoreOps write_ok (clear_claimed write_ok u m f) rest

/-- With successful writes, the file always reloads to the live map. -/
theorem runStoreOps_load_eq (ops : List StoreOp) :
    ∀ (m : RewardsMap) (f : Option RewardsMap), load f = m →
      load (runStoreOps true (m, f) ops).2 = (runStoreOps true (m, f) ops).1 := by
  induction ops with
  | nil => intro m f h; exact h
  | cons op rest ih =>
    intro m f h
    cases op with
    | add u s ts =>
      exact ih _ _ rfl
    | claimAll u =>
      exact ih _ _ rfl
    | clearClaimed u =>
      by_cases hk : dictHas m (pyLower u)
      · simp only [runStoreOps, clear_claimed, hk, if_pos]
        exact ih _ _ rfl
      · simp only [runStoreOps, clear_claimed, hk]
        simp only [Bool.false_eq_true, if_false]
        exact ih _ _ h

end PendingRewardsStore

/-- C8: for every sequence of `add_pending` / `claim_all` / `clear_claimed`
operations starting from an empty store (and successful writes), a fresh
store reloaded from the resulting `pending_rewards.json` yields the same
`get_pending(u)` list for every username `u` as the in-memory store. -/
theorem claim_C8_store_round_trip (ops : List PendingRewardsStore.StoreOp)
    (u : String) :
    PendingRewardsStore.get_pending
      (PendingRewardsStore.load (PendingRewardsStore.runStoreOps true ([], none) ops).2) u =
    PendingRewardsStore.get_pending
      (PendingRewardsStore.runStoreOps true ([], none) ops).1 u := by
  rw [PendingRewardsStore.runStoreOps_load_eq ops [] none rfl]

/-- C10: when writing `pending_rewards.json` fails, every store mutation
still returns normally (`_save` catches and logs the error), the in-memory
mutation remains applied, the file keeps its previous contents, and so the
in-memory map and the on-disk file silently diverge (shown at a concrete
failed `add_pending` from a fresh store). -/
theorem claim_C10_failed_save_mutations
    (m : PendingRewardsStore.RewardsMap) (f : Option PendingRewardsStore.RewardsMap)
    (u s ts : String) :
    (PendingRewardsStore.add_pending false u s ts m f).1 =
        PendingRewardsStore.add_pending_mem u s ts m ∧
    (PendingRewardsStore.add_pending false u s ts m f).2 = f ∧
    (PendingRewardsStore.claim_all false u m f).1 =
        PendingRewardsStore.claim_all_mem u m ∧
    (PendingRewardsStore.claim_all false u m f).2.1 = f ∧
    (PendingRewardsStore.clear_claimed false u m f).1 =
        PendingRewardsStore.clear_claimed_mem u m ∧
    (PendingRewardsStore.clear_claimed false u m f).2 = f ∧
    PendingRewardsStore.get_pending
        (PendingRewardsStore.add_pending false "Steve" "PMC" "t0" [] none).1 "Steve" ≠
      PendingRewardsStore.get_pending
        (PendingRewardsStore.load
          (PendingRewardsStore.add_pending false "Steve" "PMC" "t0" [] none).2) "Steve" := by
  refine ⟨rfl, rfl, rfl, rfl, ?_, ?_, by decide⟩
  · by_cases hk : PendingRewardsStore.dictHas m (pyLower u)
    · simp [PendingRewardsStore.clear_claimed, PendingRewardsStore.clear_claimed_mem, hk]
    · simp [PendingRewardsStore.clear_claimed, PendingRewardsStore.clear_claimed_mem, hk]
  · by_cases hk : PendingRewardsStore.dictHas m (pyLower u)
    · simp [PendingRewardsStore.clear_claimed, PendingRewardsStore.save, hk]
    · simp [PendingRewardsStore.clear_claimed, hk]

/-! ## RCON authentication check

`votifier_service/rcon_client.py`, `RconClient._connect` (lines 59-90) and
`discord_bot/bot.py`, `MinecraftBridge._rcon_connect` (lines 153-188): both
send the AUTH packet with `packet_id = 1`, receive one packet, and then run
`if packet_id == -1: ... return False` / otherwise accept the session.
-/

namespace RconAuth

/-- The packet id both clients place in the AUTH request packet. -/
def AUTH_REQUEST_PACKET_ID : Int := 1

/-- `RconClient._connect`: the acceptance decision on the response packet id. -/
def rconClientConnectAccepts (responseId : Int) : Bool :=
  if responseId = -1 then false else true

/-- `MinecraftBridge._rcon_connect`: identical acceptance decision. -/
def bridgeRconConnectAccepts (responseId : Int) : Bool :=
  if responseId = -1 then false else true

end RconAuth

/-- C2 counterexample: a response with packet id 7 — neither the request id 1
nor -1 — is accepted as authentication success by both clients, refuting
"success if and only if the response packet id equals the request id". -/
theorem claim_C2_counterexample :
    RconAuth.rconClientConnectAccepts 7 = true ∧
    RconAuth.bridgeRconConnectAccepts 7 = true ∧
    (7 : Int) ≠ RconAuth.AUTH_REQUEST_PACKET_ID ∧ (7 : Int) ≠ -1 := by
  refine ⟨rfl, rfl, by decide, by decide⟩

/-- C2 amended: during RC connect both clients fail authentication exactly
when the response packet id is -1 and accept it in every other case; the
request packet id (1) is never compared against the response. -/
theorem claim_C2_auth_acceptance (responseId : Int) :
    (RconAuth.rconClientConnectAccepts responseId = true ↔ responseId ≠ -1) ∧
    (RconAuth.rconClientConnectAccepts responseId = false ↔ responseId = -1) ∧
    RconAuth.bridgeRconConnectAccepts responseId =
      RconAuth.rconClientConnectAccepts responseId := by
  refine ⟨?_, ?_, rfl⟩ <;>
    · unfold RconAuth.rconClientConnectAccepts
      by_cases h : responseId = -1 <;> simp [h]

/-! ## Configuration loading and process exit codes

`votifier_service/config.py` / `discord_bot/config.py` (`load_config`,
`_get_env`, `_get_env_int`, `_get_env_bool`) and the two `main` entry points
(`votifier_service/main.py` lines 363-389, `discord_bot/bot.py` lines 755-767).
The environment is a partial map from variable names to strings.
-/

namespace ConfigLoad

/-- The process environment. -/
abbrev Env := String → Option String

/-- `os.getenv(key, default)` for a string default. -/
def get_env_default (env : Env) (key dflt : String) : String := (env key).getD dflt

/-- `_get_env(key, required=True)`: a missing or empty value (both falsy in
Python) raises `ValueError`. -/
def get_env_required (env : Env) (key : String) : Except String String :=
  match env key with
  | none => .error ("Required environment variable " ++ key ++ " is not set")
  | some v =>
    if v = "" then .error ("Required environment variable " ++ key ++ " is not set")
    else .ok v

/-- Accumulate the value of an ASCII digit run; `none` on a non-digit. -/
def digitsValGo : List Char → Nat → Option Nat
  | [], acc => some acc
  | c :: cs, acc =>
    if pyDigit c then digitsValGo cs (acc * 10 + (c.toNat - '0'.toNat)) else none

/-- Value of a nonempty ASCII digit run. -/
def digitsVal : List Char → Option Nat
  | [] => none
  | l => digitsValGo l 0

/-- Python `int(value)`: optional surrounding whitespace, optional sign,
then decimal digits. -/
def pyInt (s : String) : Option Int :=
  match pyStrip s.data with
  | '-' :: rest => (digitsVal rest).map (fun n => -(n : Int))
  | '+' :: rest => (digitsVal rest).map (fun n => (n : Int))
  | l => (digitsVal l).map (fun n => (n : Int))

/-- `_get_env_int`: default when unset, `ValueError` when not an integer. -/
def get_env_int (env : Env) (key : String) (dflt : Int) : Except String Int :=
  match env key with
  | none => .ok dflt
  | some v =>
    match pyInt v with
    | some n => .ok n
    | none => .error ("Environment variable " ++ key ++ " must be an integer")

/-- `_get_env_bool` (votifier config). -/
def get_env_bool (env : Env) (key : String) (dflt : Bool) : Bool :=
  match env key with
  | none => dflt
  | some v =>
    pyLower v = "true" || pyLower v = "1" || pyLower v = "yes" || pyLower v = "on"

/-- `RconConfig` of the votifier service. -/
structure RconConfig where
  host : String
  port : Int
  password : String

/-- `VotifierConfig`. -/
structure VotifierConfig where
  host : String
  port : Int
  keys_path : String

/-- Votifier-service `Config`. -/
structure VServiceConfig where
  rcon : RconConfig
  votifier : VotifierConfig
  debug : Bool

/-- `votifier_service/config.py`, `load_config` (field evaluation order as in
the source: host, port, password, then the votifier block, then DEBUG). -/
def load_config_votifier (env : Env) : Except String VServiceConfig := do
  let host := get_env_default env "RCON_HOST" "localhost"
  let port ← get_env_int env "RCON_PORT" 25575
  let password ← get_env_required env "RCON_PASSWORD"
  let vhost := get_env_default env "VOTIFIER_HOST" "0.0.0.0"
  let vport ← get_env_int env "VOTIFIER_PORT" 8192
  let keys := get_env_default env "KEYS_PATH" "keys"
  .ok ⟨⟨host, port, password⟩, ⟨vhost, vport, keys⟩, get_env_bool env "DEBUG" false⟩

/-- `DiscordConfig` of the bridge. -/
structure DiscordConfig where
  token : String
  channel_id : Int
  webhook_url : Option String
  guild_id : Option Int

/-- `MinecraftConfig` of the bridge. -/
structure MinecraftConfig where
  rcon_host : String
  rcon_port : Int
  rcon_password : String
  server_name : String

/-- Bridge `Settings`. -/
structure Settings where
  topic_update_interval : Int
  stats_check_interval : Int
  max_message_length : Int
  events_poll_interval : Int

/-- Bridge `Config`. -/
structure BridgeConfig where
  discord : DiscordConfig
  minecraft : MinecraftConfig
  database_url : String
  settings : Settings

/-- `discord_bot/config.py`, `load_config`: Discord block first (token
required, channel id integer with default 0 then rejected when falsy),
then the Minecraft block, database URL and settings. -/
def load_config_bridge (env : Env) : Except String BridgeConfig := do
  let token ← get_env_required env "DISCORD_TOKEN"
  let channelId ← get_env_int env "DISCORD_CHANNEL_ID" 0
  let webhook := env "DISCORD_WEBHOOK_URL"
  let guildId ← get_env_int env "DISCORD_GUILD_ID" 0
  let guildIdOpt := if guildId = 0 then none else some guildId
  if channelId = 0 then .error "DISCORD_CHANNEL_ID must be set"
  else do
    let rhost := get_env_default env "RCON_HOST" "localhost"
    let rport ← get_env_int env "RCON_PORT" 25575
    let rpass ← get_env_required env "RCON_PASSWORD"
    let sname := get_env_default env "SERVER_NAME" "Minecraft Server"
    let dbUrl := get_env_default env "DATABASE_URL" ""
    let tui ← get_env_int env "TOPIC_UPDATE_INTERVAL" 60
    let sci ← get_env_int env "STATS_CHECK_INTERVAL" 5
    let mml ← get_env_int env "MAX_MESSAGE_LENGTH" 256
    let epi ← get_env_int env "EVENTS_POLL_INTERVAL" 2
    .ok ⟨⟨token, channelId, webhook, guildIdOpt⟩, ⟨rhost, rport, rpass, sname⟩,
      dbUrl, ⟨tui, sci, mml, epi⟩⟩

/-- Did a config load raise? -/
def loadFailed {α : Type} (r : Except String α) : Bool :=
  match r with
  | .error _ => true
  | .ok _ => false

/-- `votifier_service/main.py`, `main`: `except ValueError` around
`load_config` calls `sys.exit(1)`; on success the process enters the server
loop (`none` = no exit decided at the configuration stage). -/
def votifier_main_config_exit (env : Env) : Option Nat :=
  match load_config_votifier env with
  | .error _ => some 1
  | .ok _ => none

/-- `discord_bot/bot.py`, `main`: `except ValueError` (and the catch-all)
around `load_config` logs and executes a bare `return`; `main` returning
normally ends the script, so the interpreter exits with status 0. -/
def bridge_main_config_exit (env : Env) : Option Nat :=
  match load_config_bridge env with
  | .error _ => some 0
  | .ok _ => none

/-- An environment with no variables set at all. -/
def envEmpty : Env := fun _ => none

end ConfigLoad

/-- C9 counterexample: with an empty environment (`DISCORD_TOKEN` missing)
the bridge's configuration load fails, yet its `main` returns normally and
the process terminates with exit code 0, not 1. -/
theorem claim_C9_counterexample :
    ConfigLoad.loadFailed (ConfigLoad.load_config_bridge ConfigLoad.envEmpty) = true ∧
    ConfigLoad.bridge_main_config_exit ConfigLoad.envEmpty = some 0 ∧
    ConfigLoad.bridge_main_config_exit ConfigLoad.envEmpty ≠ some 1 := by
  refine ⟨rfl, rfl, by decide⟩

/-- C9 amended: when configuration loading fails the votifier process exits
with code 1 (`sys.exit(1)`), but the bridge merely returns from `main` and
terminates with exit code 0; neither exits when loading succeeds. -/
theorem claim_C9_config_exit_codes (env : ConfigLoad.Env) :
    ConfigLoad.votifier_main_config_exit env =
      (if ConfigLoad.loadFailed (ConfigLoad.load_config_votifier env)
        then some 1 else none) ∧
    ConfigLoad.bridge_main_config_exit env =
      (if ConfigLoad.loadFailed (ConfigLoad.load_config_bridge env)
        then some 0 else none) := by
  constructor
  · unfold ConfigLoad.votifier_main_config_exit ConfigLoad.loadFailed
    cases ConfigLoad.load_config_votifier env <;> simp
  · unfold ConfigLoad.bridge_main_config_exit ConfigLoad.loadFailed
    cases ConfigLoad.load_config_bridge env <;> simp

/-! ## Votifier vote parsing (`votifier_service/votifier_protocol.py`, `parse_vote`)

The decrypted bytes are modelled after UTF-8 decoding as
`Option (List Char)`: `none` stands for a byte string that is not valid
UTF-8 (`UnicodeDecodeError`, re-raised as the "Failed to decode" error),
`some text` for the decoded text.
-/

namespace VotifierProtocol

/-- The `Vote` dataclass. -/
structure Vote where
  service_name : String
  username : String
  address : String
  timestamp : String
deriving DecidableEq, Repr

/-- The three `ValueError` families raised by `parse_vote`. -/
inductive VoteParseError where
  | encoding
  | truncated
  | badOpcode
deriving DecidableEq, Repr

/-- `parse_vote` (lines 140-178): `data_str.strip().split("\n")`, require at
least 5 lines, require the trimmed first line to be `"VOTE"`, then return
the trimmed fields of lines 1-4. -/
def parse_vote (decoded : Option (List Char)) : Except VoteParseError Vote :=
  match decoded with
  | none => .error .encoding
  | some data =>
    let lines := splitNl (pyStrip data)
    if lines.length < 5 then .error .truncated
    else
      let opcode := pyStrip (lines.getD 0 [])
      if opcode ≠ "VOTE".data then .error .badOpcode
      else
        .ok ⟨String.mk (pyStrip (lines.getD 1 [])),
          String.mk (pyStrip (lines.getD 2 [])),
          String.mk (pyStrip (lines.getD 3 [])),
          String.mk (pyStrip (lines.getD 4 []))⟩

/-- Modelled from the spec sentence behind C7: split the decoded text on
newline as-is (no whole-text strip), require at least 5 lines, require the
trimmed first line to be `"VOTE"`, and trim each of the first 5 lines. -/
def parse_vote_claim (decoded : Option (List Char)) : Except VoteParseError Vote :=
  match decoded with
  | none => .error .encoding
  | some data =>
    let lines := splitNl data
    if lines.length < 5 then .error .truncated
    else
      let opcode := pyStrip (lines.getD 0 [])
      if opcode ≠ "VOTE".data then .error .badOpcode
      else
        .ok ⟨String.mk (pyStrip (lines.getD 1 [])),
          String.mk (pyStrip (lines.getD 2 [])),
          String.mk (pyStrip (lines.getD 3 [])),
          String.mk (pyStrip (lines.getD 4 []))⟩

end VotifierProtocol

/-- C7 counterexample: the payload `"VOTE\nS\nU\nA\n\n"` decodes to text with
6 newline-separated lines (at least 5) whose first trimmed line is `"VOTE"`,
so the claim says parsing succeeds; the code strips the whole text first,
leaving 4 lines, and fails with Truncated. -/
theorem claim_C7_counterexample :
    VotifierProtocol.parse_vote (some "VOTE\nS\nU\nA\n\n".data) =
      .error VotifierProtocol.VoteParseError.truncated ∧
    5 ≤ (splitNl "VOTE\nS\nU\nA\n\n".data).length ∧
    pyStrip ((splitNl "VOTE\nS\nU\nA\n\n".data).getD 0 []) = "VOTE".data ∧
    VotifierProtocol.parse_vote_claim (some "VOTE\nS\nU\nA\n\n".data) =
      .ok ⟨"S", "U", "A", ""⟩ := by
  refine ⟨rfl, by decide, by decide, rfl⟩

/-- C7 amended: `parse_vote` first strips leading and trailing whitespace
from the decoded text and only then splits on newline; it behaves exactly
as the claim's parser applied to the stripped text (so Truncated means the
stripped text has fewer than 5 lines, BadOpcode means its first trimmed
line differs from "VOTE", success tolerates extra material after the 5th
line), and the Encoding failure happens exactly on invalid UTF-8. -/
theorem claim_C7_parse_vote_strips_first :
    (∀ decoded, VotifierProtocol.parse_vote decoded =
      VotifierProtocol.parse_vote_claim (Option.map (fun l => pyStrip l) decoded)) ∧
    VotifierProtocol.parse_vote none =
      .error VotifierProtocol.VoteParseError.encoding ∧
    (∀ text, VotifierProtocol.parse_vote (some text) ≠
      .error VotifierProtocol.VoteParseError.encoding) := by
  refine ⟨?_, rfl, ?_⟩
  · intro decoded
    cases decoded with
    | none => rfl
    | some data => rfl
  · intro text
    simp only [VotifierProtocol.parse_vote]
    split
    · simp
    · split <;> simp

/-- Python `str.split(sep)` for a nonempty separator, fuel-driven. -/
def pySplitSubGo (sep : List Char) : Nat → List Char → List (List Char)
  | 0, l => [l]
  | _ + 1, [] => [[]]
  | fuel + 1, c :: cs =>
    if startsWithL (c :: cs) sep && !sep.isEmpty then
      [] :: pySplitSubGo sep fuel ((c :: cs).drop sep.length)
    else
      match pySplitSubGo sep fuel cs with
      | [] => [[c]]
      | p :: ps => (c :: p) :: ps

/-- Python `str.split(sep)`. -/
def pySplitSub (sep l : List Char) : List (List Char) := pySplitSubGo sep l.length l

/-! ## Claim-queue poller (`votifier_service/main.py`, `VotifierServer`)

`_poll_claim_queue` (lines 107-123) and `claim_pending_rewards`
(lines 217-244).  The poller's state is the pending store (map and file),
the `_notified_players` set and the list of RCON commands issued so far.
-/

namespace VotifierServer

/-- The attributes `RconClient` instances actually carry
(`votifier_service/rcon_client.py`): the `__init__` fields and the defined
methods.  There is no `claim_pending_rewards` among them. -/
def rconClientAttributes : List String :=
  ["config", "_socket", "_connected", "_send_packet", "_recv_packet",
   "_connect", "_disconnect", "close", "execute", "process_vote",
   "test_connection"]

/-- Python attribute lookup on an `RconClient`: missing names raise
`AttributeError`. -/
def rconClientHasAttribute (name : String) : Bool :=
  rconClientAttributes.contains name

/-- State threaded through the claim poller. -/
structure ClaimState where
  store : PendingRewardsStore.RewardsMap
  file : Option PendingRewardsStore.RewardsMap
  notified : List String
  rcCalls : List String
deriving DecidableEq, Repr

/-- `VotifierServer.claim_pending_rewards` (main.py lines 217-244): reads
`count = pending_store.get_pending_count(username)`, then inside `try`
evaluates `self.rcon.claim_pending_rewards(username, count)`.  `RconClient`
defines no such attribute, so the lookup raises `AttributeError`, the
`except Exception` arm logs and the routine returns `False` with every
piece of state untouched.  The branch the surrounding code intends (issue
`kubevote claim <user> <count>`, then `claim_all`, `clear_claimed` and
drop the lower-cased name from `_notified_players` when `count > 0`) is
kept under the attribute-existence guard, which is false. -/
def claim_pending_rewards (username : String) (st : ClaimState) :
    ClaimState × Bool :=
  let count := PendingRewardsStore.get_pending_count st.store username
  if rconClientHasAttribute "claim_pending_rewards" then
    let call := "kubevote claim " ++ username ++ " " ++ toString count
    if count > 0 then
      let r1 := PendingRewardsStore.claim_all true username st.store st.file
      let r2 := PendingRewardsStore.clear_claimed true username r1.1 r1.2.1
      ({ store := r2.1, file := r2.2,
         notified := st.notified.filter (fun n => n ≠ pyLower username),
         rcCalls := st.rcCalls ++ [call] }, true)
    else ({ st with rcCalls := st.rcCalls ++ [call] }, false)
  else (st, false)

/-- One pass of `_poll_claim_queue` over a received RCON response
(main.py lines 110-120): when the response contains `"CLAIMQUEUE:"`, take
the text after the marker, strip it, split on commas, and run the claim
routine for every nonempty trimmed username. -/
def poll_claim_queue_step (response : String) (st : ClaimState) : ClaimState :=
  if strContains response "CLAIMQUEUE:" then
    let queue_data :=
      pyStrip ((pySplitSub "CLAIMQUEUE:".data response.data).getD 1 [])
    if queue_data.isEmpty then st
    else
      (splitComma queue_data).foldl
        (fun acc seg =>
          let username := String.mk (pyStrip seg)
          if username = "" then acc
          else (claim_pending_rewards username acc).1) st
  else st

/-- A store in which Steve has two pending rewards. -/
def steveStore : PendingRewardsStore.RewardsMap :=
  PendingRewardsStore.add_pending_mem "Steve" "TopG" "t1"
    (PendingRewardsStore.add_pending_mem "Steve" "PMC" "t0" [])

end VotifierServer

/-- C1, evaluating the code at the failing input: `RconClient` has no
`claim_pending_rewards` attribute, so on the response
`"CLAIMQUEUE: Steve, Alex"` with Steve holding 2 pending rewards the claim
routine's `AttributeError` is swallowed: no `kubevote claim` RCON call is
ever issued, no reward is marked claimed or removed, and Steve's pending
count is still 2 afterwards — contradicting the claim. -/
theorem claim_C1_claim_routine_is_a_noop :
    VotifierServer.rconClientHasAttribute "claim_pending_rewards" = false ∧
    PendingRewardsStore.get_pending_count VotifierServer.steveStore "Steve" = 2 ∧
    VotifierServer.poll_claim_queue_step "CLAIMQUEUE: Steve, Alex"
        ⟨VotifierServer.steveStore, some VotifierServer.steveStore, [], []⟩ =
      ⟨VotifierServer.steveStore, some VotifierServer.steveStore, [], []⟩ ∧
    (VotifierServer.poll_claim_queue_step "CLAIMQUEUE: Steve, Alex"
        ⟨VotifierServer.steveStore, some VotifierServer.steveStore, [], []⟩).rcCalls = [] := by
  refine ⟨by decide, by decide, by decide, by decide⟩

namespace PendingRewardsStore

/-- Reading back the key just written. -/
theorem dictGetD_set_self (m : RewardsMap) (k : String) (v : List Reward) :
    dictGetD (dictSet m k v) k = v := by
  induction m with
  | nil => simp [dictSet, dictGetD]
  | cons kv rest ih =>
    obtain ⟨k', v'⟩ := kv
    by_cases h : k' = k
    · simp [dictSet, dictGetD, h]
    · simp [dictSet, dictGetD, h, ih]

/-- Writing one key does not disturb reads of another. -/
theorem dictGetD_set_other (m : RewardsMap) (k k' : String) (v : List Reward)
    (h : k' ≠ k) : dictGetD (dictSet m k v) k' = dictGetD m k' := by
  have hk : k ≠ k' := fun heq => h heq.symm
  induction m with
  | nil => simp [dictSet, dictGetD, hk]
  | cons kv rest ih =>
    obtain ⟨a, b⟩ := kv
    by_cases ha : a = k
    · subst ha
      simp [dictSet, dictGetD, hk]
    · by_cases ha' : a = k'
      · simp [dictSet, dictGetD, ha, ha', h]
      · simp [dictSet, dictGetD, ha, ha', ih]

/-- `add_pending` appends exactly one fresh unclaimed reward to the caller's
pending list. -/
theorem get_pending_add_self (m : RewardsMap) (u s ts : String) :
    get_pending (add_pending_mem u s ts m) u =
      get_pending m u ++ [⟨u, s, ts, false⟩] := by
  unfold get_pending add_pending_mem
  rw [dictGetD_set_self]
  rw [List.filter_append]
  simp

/-- `add_pending` leaves every other player's pending list unchanged. -/
theorem get_pending_add_other (m : RewardsMap) (u s ts u' : String)
    (h : pyLower u' ≠ pyLower u) :
    get_pending (add_pending_mem u s ts m) u' = get_pending m u' := by
  unfold get_pending add_pending_mem
  rw [dictGetD_set_other _ _ _ _ h]

end PendingRewardsStore

/-! ## Per-connection vote handling (`votifier_service/main.py`, `_handle_client`)

The vote-processing section (lines 297-328) after a 256-byte block has been
received: codec outcome, dedup check and mark, the RCON `process_vote`
call, and the pending-reward fallback.  The codec outcome
(`process_vote_block`, which raises `ValueError` on block-size, crypto,
encoding, truncation or opcode errors) and the RCON outcome (an exception
or the response string) are inputs of the step.
-/

namespace VotifierServer

/-- Does the RCON outcome send the vote to the pending store?  Per the code:
an exception, or a response whose lower-cased form contains `"not found"`
or `"no player"`. -/
def rconOutcomeConverts (rcon : Except Unit String) : Bool :=
  match rcon with
  | .error _ => true
  | .ok response =>
    strContains (pyLower response) "not found" ||
      strContains (pyLower response) "no player"

/-- The vote-processing part of `_handle_client`: returns the updated
pending store (map and file) and dedup dict. -/
def handle_client_vote
    (decode : Except Unit VotifierProtocol.Vote)
    (dedup : VoteDeduplication.Votes) (nowDup nowMark : ℚ)
    (rcon : Except Unit String) (timestamp : String) (write_ok : Bool)
    (m : PendingRewardsStore.RewardsMap) (f : Option PendingRewardsStore.RewardsMap) :
    PendingRewardsStore.RewardsMap × Option PendingRewardsStore.RewardsMap ×
      VoteDeduplication.Votes :=
  match decode with
  | .error _ => (m, f, dedup)
  | .ok vote =>
    let dup := VoteDeduplication.is_duplicate dedup vote.username vote.service_name nowDup
    if dup.1 then (m, f, dup.2)
    else
      let d2 := VoteDeduplication.mark_processed dup.2 vote.username vote.service_name nowMark
      match rcon with
      | .error _ =>
        let r := PendingRewardsStore.add_pending write_ok vote.username
          vote.service_name timestamp m f
        (r.1, r.2, d2)
      | .ok response =>
        if strContains (pyLower response) "not found" ||
            strContains (pyLower response) "no player" then
          let r := PendingRewardsStore.add_pending write_ok vote.username
            vote.service_name timestamp m f
          (r.1, r.2, d2)
        else (m, f, d2)

end VotifierServer

/-- C4: in the per-connection handler, a successfully decoded non-duplicate
vote adds exactly one pending reward for its user/service exactly when the
RCON exec raised or the response mentions "not found" / "no player"
(case-insensitively): the voter's pending list grows by that one fresh
entry, every other player's list is untouched; in every other case
(duplicate, codec failure, or a normal response) the store is unchanged. -/
theorem claim_C4_pending_reward_conversion
    (decode : Except Unit VotifierProtocol.Vote)
    (dedup : VoteDeduplication.Votes) (nowDup nowMark : ℚ)
    (rcon : Except Unit String) (ts : String)
    (m : PendingRewardsStore.RewardsMap) (f : Option PendingRewardsStore.RewardsMap) :
    match decode with
    | .error _ =>
        (VotifierServer.handle_client_vote decode dedup nowDup nowMark rcon ts true m f).1 = m
    | .ok vote =>
        if (VoteDeduplication.is_duplicate dedup vote.username vote.service_name nowDup).1 then
          (VotifierServer.handle_client_vote decode dedup nowDup nowMark rcon ts true m f).1 = m
        else if VotifierServer.rconOutcomeConverts rcon then
          PendingRewardsStore.get_pending
              (VotifierServer.handle_client_vote decode dedup nowDup nowMark rcon ts true m f).1
              vote.username =
            PendingRewardsStore.get_pending m vote.username ++
              [⟨vote.username, vote.service_name, ts, false⟩] ∧
          ∀ u, pyLower u ≠ pyLower vote.username →
            PendingRewardsStore.get_pending
                (VotifierServer.handle_client_vote decode dedup nowDup nowMark rcon ts true m f).1 u =
              PendingRewardsStore.get_pending m u
        else
          (VotifierServer.handle_client_vote decode dedup nowDup nowMark rcon ts true m f).1 = m := by
  cases decode with
  | error e => rfl
  | ok vote =>
    simp only [VotifierServer.handle_client_vote]
    by_cases hdup :
        (VoteDeduplication.is_duplicate dedup vote.username vote.service_name nowDup).1
    · simp [hdup]
    · simp only [hdup, if_false, Bool.false_eq_true]
      cases rcon with
      | error e =>
        simp only [VotifierServer.rconOutcomeConverts, if_true]
        constructor
        · exact PendingRewardsStore.get_pending_add_self m vote.username vote.service_name ts
        · intro u hu
          exact PendingRewardsStore.get_pending_add_other m vote.username vote.service_name ts u hu
      | ok response =>
        by_cases hconv : strContains (pyLower response) "not found" ||
            strContains (pyLower response) "no player"
        · simp only [VotifierServer.rconOutcomeConverts, hconv, if_true]
          constructor
          · exact PendingRewardsStore.get_pending_add_self m vote.username vote.service_name ts
          · intro u hu
            exact PendingRewardsStore.get_pending_add_other m vote.username vote.service_name ts u hu
        · simp [VotifierServer.rconOutcomeConverts, hconv]

/-! ## Bridge status FSM (`discord_bot/bot.py`, `MinecraftBridge.poll_server_stats`)

Lines 455-504: one tick of the stats poller, driven by whether
`get_stats_via_rcon` produced a stats dict (`statsOk`) and the current
wall-clock time.  The embedded state carries exactly the debounce
variables the tick reads and writes.
-/

namespace MinecraftBridge

/-- `STATUS_COOLDOWN = 30` seconds. -/
def STATUS_COOLDOWN : ℚ := 30

/-- `OFFLINE_THRESHOLD = 3` consecutive failed checks. -/
def OFFLINE_THRESHOLD : Nat := 3

/-- The debounce state of the bridge. -/
structure BridgeState where
  server_online : Bool
  consecutive_offline_checks : Nat
  last_status_notification : ℚ
deriving DecidableEq, Repr

/-- The status notification a tick may emit. -/
inductive StatusNotif where
  | online
  | restarting
deriving DecidableEq, Repr

/-- One tick of `poll_server_stats`. -/
def pollTick (st : BridgeState) (statsOk : Bool) (now : ℚ) :
    BridgeState × Option StatusNotif :=
  if statsOk then
    if st.server_online = false then
      if STATUS_COOLDOWN ≤ now - st.last_status_notification then
        ({ server_online := true, consecutive_offline_checks := 0,
           last_status_notification := now }, some .online)
      else
        ({ server_online := true, consecutive_offline_checks := 0,
           last_status_notification := st.last_status_notification }, none)
    else
      ({ st with consecutive_offline_checks := 0 }, none)
  else
    let checks := st.consecutive_offline_checks + 1
    if st.server_online = true ∧ OFFLINE_THRESHOLD ≤ checks then
      if STATUS_COOLDOWN ≤ now - st.last_status_notification then
        ({ server_online := false, consecutive_offline_checks := checks,
           last_status_notification := now }, some .restarting)
      else
        ({ server_online := false, consecutive_offline_checks := checks,
           last_status_notification := st.last_status_notification }, none)
    else
      ({ st with consecutive_offline_checks := checks }, none)

/-- Run a sequence of ticks, collecting the notifications in order. -/
def runTicks (st : BridgeState) : List (Bool × ℚ) → BridgeState × List (Option StatusNotif)
  | [] => (st, [])
  | (ok, now) :: rest =>
    let step := pollTick st ok now
    let tail := runTicks step.1 rest
    (tail.1, step.2 :: tail.2)

/-- A failing tick with the server offline emits nothing and only counts. -/
theorem pollTick_fail_offline (st : BridgeState) (now : ℚ)
    (h : st.server_online = false) :
    pollTick st false now =
      ({ st with consecutive_offline_checks := st.consecutive_offline_checks + 1 },
        none) := by
  unfold pollTick
  simp [h]

/-- A succeeding tick with the server online emits nothing. -/
theorem pollTick_ok_online (st : BridgeState) (now : ℚ)
    (h : st.server_online = true) :
    pollTick st true now = ({ st with consecutive_offline_checks := 0 }, none) := by
  unfold pollTick
  simp [h]

/-- Offline failing ticks never notify and never change the online flag or
the notification clock. -/
theorem runTicks_offline_fails (st : BridgeState) (h : st.server_online = false) :
    ∀ (pre : List ℚ),
      (runTicks st (pre.map (fun τ => (false, τ)))).2 =
          List.replicate pre.length none ∧
        (runTicks st (pre.map (fun τ => (false, τ)))).1.server_online = false ∧
        (runTicks st (pre.map (fun τ => (false, τ)))).1.last_status_notification =
          st.last_status_notification := by
  intro pre
  induction pre generalizing st with
  | nil => exact ⟨rfl, h, rfl⟩
  | cons τ rest ih =>
    simp only [List.map_cons, runTicks, pollTick_fail_offline st τ h]
    have := ih { st with consecutive_offline_checks := st.consecutive_offline_checks + 1 } h
    exact ⟨by simp [this.1, List.replicate_succ], this.2.1, this.2.2⟩

/-- Online succeeding ticks never notify. -/
theorem runTicks_online_oks (st : BridgeState) (h : st.server_online = true) :
    ∀ (posts : List ℚ),
      (runTicks st (posts.map (fun τ => (true, τ)))).2 =
        List.replicate posts.length none := by
  intro posts
  induction posts generalizing st with
  | nil => rfl
  | cons τ rest ih =>
    simp only [List.map_cons, runTicks, pollTick_ok_online st τ h]
    have := ih { st with consecutive_offline_checks := 0 } h
    simp [this, List.replicate_succ]

end MinecraftBridge

namespace MinecraftBridge

/-- `consecutive_offline_checks` after folding a run of tick outcomes. -/
def counterAfter (c : Nat) (bs : List Bool) : Nat :=
  bs.foldl (fun acc ok => if ok then 0 else acc + 1) c

/-- Number of consecutive failing ticks at the end of an outcome list. -/
def trailFails (bs : List Bool) : Nat :=
  (bs.reverse.takeWhile (fun b => !b)).length

theorem counterAfter_cons (c : Nat) (b : Bool) (l : List Bool) :
    counterAfter c (b :: l) = counterAfter (if b then 0 else c + 1) l := rfl

/-- Starting from a reset counter, the fold computes exactly the length of
the trailing failure run. -/
theorem counterAfter_zero_eq_trailFails (bs : List Bool) :
    counterAfter 0 bs = trailFails bs := by
  induction bs using List.reverseRecOn with
  | nil => rfl
  | append_singleton bs b ih =>
    cases b with
    | true =>
      simp [counterAfter, List.foldl_append, trailFails, List.takeWhile]
    | false =>
      simp only [counterAfter, List.foldl_append, List.foldl_cons, List.foldl_nil,
        Bool.false_eq_true, if_false, trailFails, List.reverse_append,
        List.reverse_cons, List.reverse_nil, List.nil_append, List.cons_append,
        List.takeWhile, Bool.not_false, List.length_cons]
      exact congrArg Nat.succ ih

theorem trailFails_le_length (bs : List Bool) : trailFails bs ≤ bs.length := by
  have h : ∀ (l : List Bool), (l.takeWhile (fun b => !b)).length ≤ l.length := by
    intro l
    induction l with
    | nil => simp
    | cons b l ih =>
      rw [List.takeWhile_cons]
      by_cases hp : (!b) = true
      · simp only [hp, if_true, List.length_cons]
        exact Nat.succ_le_succ ih
      · simp [hp]
  calc trailFails bs ≤ bs.reverse.length := h bs.reverse
    _ = bs.length := List.length_reverse bs

/-- The tick's effect on the failure counter. -/
theorem pollTick_counter (st : BridgeState) (ok : Bool) (now : ℚ) :
    (pollTick st ok now).1.consecutive_offline_checks =
      if ok then 0 else st.consecutive_offline_checks + 1 := by
  unfold pollTick
  cases ok with
  | true =>
    by_cases hon : st.server_online = false
    · by_cases hcd : STATUS_COOLDOWN ≤ now - st.last_status_notification <;>
        simp [hon, hcd]
    · simp [hon]
  | false =>
    by_cases hc : st.server_online = true ∧
        OFFLINE_THRESHOLD ≤ st.consecutive_offline_checks + 1
    · by_cases hcd : STATUS_COOLDOWN ≤ now - st.last_status_notification <;>
        simp [hc, hcd]
    · simp [hc]

/-- Dissecting a tick that emitted the "restarting" embed. -/
theorem pollTick_restarting (st : BridgeState) (ok : Bool) (now : ℚ)
    (h : (pollTick st ok now).2 = some .restarting) :
    ok = false ∧ st.server_online = true ∧
      OFFLINE_THRESHOLD ≤ st.consecutive_offline_checks + 1 ∧
      STATUS_COOLDOWN ≤ now - st.last_status_notification := by
  cases ok with
  | true =>
    exfalso
    unfold pollTick at h
    by_cases hon : st.server_online = false
    · by_cases hcd : STATUS_COOLDOWN ≤ now - st.last_status_notification <;>
        simp [hon, hcd] at h
    · simp [hon] at h
  | false =>
    unfold pollTick at h
    simp only [Bool.false_eq_true, if_false] at h
    by_cases hc : st.server_online = true ∧
        OFFLINE_THRESHOLD ≤ st.consecutive_offline_checks + 1
    · by_cases hcd : STATUS_COOLDOWN ≤ now - st.last_status_notification
      · exact ⟨rfl, hc.1, hc.2, hcd⟩
      · simp [hc, hcd] at h
    · simp [hc] at h

/-- Any "restarting" emission during a run happened on a failing tick whose
fold-counter (seeded with the start state's counter) had reached 3, after
the 30-second cooldown. -/
theorem restarting_emission_analysis :
    ∀ (ticks : List (Bool × ℚ)) (st : BridgeState) (i : Nat),
      (runTicks st ticks).2.get? i = some (some .restarting) →
      ∃ now, ticks.get? i = some (false, now) ∧
        OFFLINE_THRESHOLD ≤
          counterAfter st.consecutive_offline_checks
            ((ticks.take (i + 1)).map Prod.fst) ∧
        STATUS_COOLDOWN ≤
          now - (runTicks st (ticks.take i)).1.last_status_notification := by
  intro ticks
  induction ticks with
  | nil => intro st i h; simp [runTicks] at h
  | cons tk rest ih =>
    intro st i h
    obtain ⟨ok, now⟩ := tk
    cases i with
    | zero =>
      have hstep : (pollTick st ok now).2 = some .restarting := by
        simpa [runTicks] using h
      obtain ⟨hok, hon, hcnt, hcd⟩ := pollTick_restarting st ok now hstep
      subst hok
      refine ⟨now, rfl, ?_, ?_⟩
      · simpa [counterAfter] using hcnt
      · simpa [runTicks] using hcd
    | succ i =>
      have h' : (runTicks (pollTick st ok now).1 rest).2.get? i =
          some (some .restarting) := by
        simpa [runTicks] using h
      obtain ⟨now', hget, hcnt, hcd⟩ := ih (pollTick st ok now).1 i h'
      refine ⟨now', by simpa using hget, ?_, ?_⟩
      · have : counterAfter st.consecutive_offline_checks
            ((((ok, now) :: rest).take (i + 2)).map Prod.fst) =
            counterAfter (pollTick st ok now).1.consecutive_offline_checks
              ((rest.take (i + 1)).map Prod.fst) := by
          simp [counterAfter_cons, pollTick_counter]
        rw [this]
        exact hcnt
      · simpa [runTicks] using hcd

end MinecraftBridge

namespace MinecraftBridge

/-- Running concatenated tick lists runs them in sequence. -/
theorem runTicks_append (st : BridgeState) (l1 l2 : List (Bool × ℚ)) :
    runTicks st (l1 ++ l2) =
      ((runTicks (runTicks st l1).1 l2).1,
        (runTicks st l1).2 ++ (runTicks (runTicks st l1).1 l2).2) := by
  induction l1 generalizing st with
  | nil => simp [runTicks]
  | cons tk rest ih =>
    obtain ⟨ok, now⟩ := tk
    simp [runTicks, ih]

/-- A successful tick from the offline state past the cooldown notifies. -/
theorem pollTick_ok_offline_notify (st : BridgeState) (now : ℚ)
    (h : st.server_online = false)
    (hcd : STATUS_COOLDOWN ≤ now - st.last_status_notification) :
    pollTick st true now = (⟨true, 0, now⟩, some .online) := by
  unfold pollTick
  simp [h, hcd]

/-- A successful tick from the offline state within the cooldown transitions
silently. -/
theorem pollTick_ok_offline_skip (st : BridgeState) (now : ℚ)
    (h : st.server_online = false)
    (hcd : ¬ STATUS_COOLDOWN ≤ now - st.last_status_notification) :
    pollTick st true now = (⟨true, 0, st.last_status_notification⟩, none) := by
  unfold pollTick
  simp [h, hcd]

end MinecraftBridge

/-- C3: (a) starting from the Offline state, a run of failing ticks followed
by the first successful tick and further successful ticks emits exactly one
"online" notification, at the first successful tick, when the 30-second
cooldown since the last notification has passed — and none at all
otherwise; (b) starting from the Online state (with the failure counter at
its post-transition value 0), a "restarting" notification can only be
emitted on a failing tick preceded by at least 2 further consecutive
failures (so never on the first or second consecutive failure, and `i ≥ 2`),
and only when the 30-second cooldown has passed. -/
theorem claim_C3_status_fsm :
    (∀ (st : MinecraftBridge.BridgeState) (pre : List ℚ) (tOn : ℚ) (posts : List ℚ),
      st.server_online = false →
      (MinecraftBridge.runTicks st
          (pre.map (fun τ => (false, τ)) ++
            (true, tOn) :: posts.map (fun τ => (true, τ)))).2 =
        List.replicate pre.length none ++
          (if (30 : ℚ) ≤ tOn - st.last_status_notification
            then some MinecraftBridge.StatusNotif.online else none) ::
            List.replicate posts.length none) ∧
    (∀ (st : MinecraftBridge.BridgeState) (ticks : List (Bool × ℚ)) (i : Nat),
      st.server_online = true → st.consecutive_offline_checks = 0 →
      (MinecraftBridge.runTicks st ticks).2.get? i =
        some (some MinecraftBridge.StatusNotif.restarting) →
      ∃ now, ticks.get? i = some (false, now) ∧
        3 ≤ MinecraftBridge.trailFails ((ticks.take (i + 1)).map Prod.fst) ∧
        2 ≤ i ∧
        (30 : ℚ) ≤ now -
          (MinecraftBridge.runTicks st (ticks.take i)).1.last_status_notification) := by
  constructor
  · intro st pre tOn posts hoff
    rw [MinecraftBridge.runTicks_append]
    obtain ⟨ho1, ho2, ho3⟩ := MinecraftBridge.runTicks_offline_fails st hoff pre
    set st1 := (MinecraftBridge.runTicks st (pre.map fun τ => (false, τ))).1 with hst1
    rw [ho1]
    rw [show ((true, tOn) :: posts.map (fun τ => (true, τ))) =
      [(true, tOn)] ++ posts.map (fun τ => (true, τ)) from rfl]
    rw [MinecraftBridge.runTicks_append]
    by_cases hcd : MinecraftBridge.STATUS_COOLDOWN ≤ tOn - st1.last_status_notification
    · have hstep : MinecraftBridge.runTicks st1 [(true, tOn)] =
          (⟨true, 0, tOn⟩, [some MinecraftBridge.StatusNotif.online]) := by
        simp [MinecraftBridge.runTicks,
          MinecraftBridge.pollTick_ok_offline_notify st1 tOn ho2 hcd]
      rw [hstep]
      rw [MinecraftBridge.runTicks_online_oks ⟨true, 0, tOn⟩ rfl posts]
      have hcd' : (30 : ℚ) ≤ tOn - st.last_status_notification := by
        rw [← ho3]; exact hcd
      simp [hcd']
    · have hstep : MinecraftBridge.runTicks st1 [(true, tOn)] =
          (⟨true, 0, st1.last_status_notification⟩, [none]) := by
        simp [MinecraftBridge.runTicks,
          MinecraftBridge.pollTick_ok_offline_skip st1 tOn ho2 hcd]
      rw [hstep]
      rw [MinecraftBridge.runTicks_online_oks ⟨true, 0, st1.last_status_notification⟩ rfl posts]
      have hcd' : ¬ (30 : ℚ) ≤ tOn - st.last_status_notification := by
        rw [← ho3]; exact hcd
      simp [hcd']
  · intro st ticks i hon hc0 hi
    obtain ⟨now, hget, hcnt, hcd⟩ :=
      MinecraftBridge.restarting_emission_analysis ticks st i hi
    rw [hc0, MinecraftBridge.counterAfter_zero_eq_trailFails] at hcnt
    have hcnt3 : 3 ≤ MinecraftBridge.trailFails ((ticks.take (i + 1)).map Prod.fst) := hcnt
    have hle : MinecraftBridge.trailFails ((ticks.take (i + 1)).map Prod.fst) ≤ i + 1 := by
      calc MinecraftBridge.trailFails ((ticks.take (i + 1)).map Prod.fst) ≤
            ((ticks.take (i + 1)).map Prod.fst).length :=
              MinecraftBridge.trailFails_le_length _
        _ = (ticks.take (i + 1)).length := List.length_map _ _
        _ ≤ i + 1 := List.length_take_le _ _
    exact ⟨now, hget, hcnt3, by omega, hcd⟩

/-- Witness for C3 at concrete runs: from Offline, two failures then a
success at time 50 (cooldown passed) then a success emit exactly
`[none, none, online, none]`; and from Online, three straight failures
yield a "restarting" at index 2 on a failing tick with a 3-tick failure
run after the cooldown. -/
theorem claim_C3_status_fsm_witness :
    (MinecraftBridge.runTicks ⟨false, 5, 0⟩
        [(false, 1), (false, 2), (true, 50), (true, 60)]).2 =
      [none, none, some MinecraftBridge.StatusNotif.online, none] ∧
    (∃ now, [((false : Bool), (1 : ℚ)), (false, 2), (false, 3)].get? 2 = some (false, now) ∧
      3 ≤ MinecraftBridge.trailFails
        (([((false : Bool), (1 : ℚ)), (false, 2), (false, 3)].take 3).map Prod.fst) ∧
      2 ≤ 2 ∧
      (30 : ℚ) ≤ now -
        (MinecraftBridge.runTicks ⟨true, 0, -100⟩
          ([((false : Bool), (1 : ℚ)), (false, 2), (false, 3)].take 2)).1.last_status_notification) := by
  constructor
  · have h := claim_C3_status_fsm.1 ⟨false, 5, 0⟩ [1, 2] 50 [60] rfl
    norm_num at h
    simpa using h
  · exact claim_C3_status_fsm.2 ⟨true, 0, -100⟩
      [(false, 1), (false, 2), (false, 3)] 2 rfl rfl
      (by norm_num [MinecraftBridge.runTicks, MinecraftBridge.pollTick,
        MinecraftBridge.STATUS_COOLDOWN, MinecraftBridge.OFFLINE_THRESHOLD])

/-! ## Discord message sanitiser (`discord_bot/bot.py`, `sanitize_discord_message`)

Lines 511-526.  The four `re.sub` passes are embedded as left-to-right
scanners over `List Char`; each matcher consumes a match at the head of the
list (the patterns are self-delimiting, so Python's regex backtracking
never finds a match a committed scanner misses) and returns the
replacement text and the remainder.
-/

namespace Sanitize

/-- `\d*>` — digits then the closing bracket; returns the remainder. -/
def digitsGt : List Char → Option (List Char)
  | [] => none
  | c :: cs => if pyDigit c then digitsGt cs else if c = '>' then some cs else none

/-- `\d+>` — at least one digit then the closing bracket. -/
def digits1Gt : List Char → Option (List Char)
  | [] => none
  | c :: cs => if pyDigit c then digitsGt cs else none

def replMention : List Char := "[mention]".data
def replChannel : List Char := "[channel]".data
def replRole : List Char := "[role]".data

/-- `re` pattern `<@!?(\d+)>` tried at the head of the list. -/
def mMention : List Char → Option (List Char × List Char)
  | c1 :: c2 :: c3 :: rest =>
    if c1 = '<' && c2 = '@' then
      if c3 = '!' then (digits1Gt rest).map (fun r => (replMention, r))
      else (digits1Gt (c3 :: rest)).map (fun r => (replMention, r))
    else none
  | _ => none

/-- `re` pattern `<#(\d+)>` tried at the head of the list. -/
def mChannel : List Char → Option (List Char × List Char)
  | c1 :: c2 :: rest =>
    if c1 = '<' && c2 = '#' then (digits1Gt rest).map (fun r => (replChannel, r))
    else none
  | _ => none

/-- `re` pattern `<@&(\d+)>` tried at the head of the list. -/
def mRole : List Char → Option (List Char × List Char)
  | c1 :: c2 :: c3 :: rest =>
    if c1 = '<' && c2 = '@' && c3 = '&' then
      (digits1Gt rest).map (fun r => (replRole, r))
    else none
  | _ => none

/-- The `(\w+):\d+>` part of the emoji pattern, after `<a?:`. -/
def emojiAfterColon (rest : List Char) : Option (List Char × List Char) :=
  let nm := rest.takeWhile pyWord
  let r1 := rest.dropWhile pyWord
  if nm.isEmpty then none
  else
    match r1 with
    | c :: r2 =>
      if c = ':' then (digits1Gt r2).map (fun r => (':' :: (nm ++ [':']), r))
      else none
    | [] => none

/-- After `<a`, the emoji pattern still needs its first `:`. -/
def emojiColonThen : List Char → Option (List Char × List Char)
  | c3 :: rest2 => if c3 = ':' then emojiAfterColon rest2 else none
  | [] => none

/-- `re` pattern `<a?:(\w+):\d+>` (replacement `:\1:`) at the head. -/
def mEmoji : List Char → Option (List Char × List Char)
  | c1 :: c2 :: rest =>
    if c1 = '<' then
      if c2 = ':' then emojiAfterColon rest
      else if c2 = 'a' then emojiColonThen rest
      else none
    else none
  | _ => none

/-- Left-to-right, non-overlapping `re.sub` scanner: replace the leftmost
match, continue after the replacement (never rescanning it). -/
def reSub (m : List Char → Option (List Char × List Char)) :
    Nat → List Char → List Char
  | 0, l => l
  | _ + 1, [] => []
  | fuel + 1, c :: cs =>
    match m (c :: cs) with
    | some (rep, rest) => rep ++ reSub m fuel rest
    | none => c :: reSub m fuel cs

/-- `re.sub(r"\s+", " ", ...)`: each maximal whitespace run becomes one
space; the flag records whether the scanner is inside a run. -/
def collapseWsGo : List Char → Bool → List Char
  | [], _ => []
  | c :: cs, inRun =>
    if pySpace c then
      if inRun then collapseWsGo cs true else ' ' :: collapseWsGo cs true
    else c :: collapseWsGo cs false

def collapseWs (l : List Char) : List Char := collapseWsGo l false

/-- Python slice `l[:n]` with a possibly negative bound. -/
def pySliceTo (n : Int) (l : List Char) : List Char :=
  if 0 ≤ n then l.take n.toNat else l.take (l.length - (-n).toNat)

/-- `content.replace('"', "'")`. -/
def quoteMap (l : List Char) : List Char :=
  l.map (fun c => if c = '"' then '\'' else c)

/-- `content.replace("\\", "")`. -/
def dropBackslashes (l : List Char) : List Char :=
  l.filter (fun c => !(c = '\\'))

/-- `content.replace("\n", " ").replace("\r", " ")`. -/
def nlMap (l : List Char) : List Char :=
  l.map (fun c => if c = '\n' || c = '\r' then ' ' else c)

/-- First `re.sub` pass: user mentions. -/
def stage1 (content : List Char) : List Char :=
  reSub mMention content.length content

/-- Second `re.sub` pass: channel mentions. -/
def stage2 (content : List Char) : List Char :=
  reSub mChannel (stage1 content).length (stage1 content)

/-- Third `re.sub` pass: role mentions. -/
def stage3 (content : List Char) : List Char :=
  reSub mRole (stage2 content).length (stage2 content)

/-- The four `re.sub` passes in source order: mentions, channels, roles,
custom emoji. -/
def regexStages (content : List Char) : List Char :=
  reSub mEmoji (stage3 content).length (stage3 content)

/-- The sanitised text before length truncation. -/
def cleanedText (content : List Char) : List Char :=
  pyStrip (collapseWs (nlMap (dropBackslashes (quoteMap (regexStages content)))))

/-- `sanitize_discord_message`: the four regex passes, the quote and
backslash replacements, newline flattening, whitespace collapsing and
stripping, and the trailing `...` truncation. -/
def sanitize_discord_message (maxLen : Int) (content : List Char) : List Char :=
  let c8 := cleanedText content
  if (c8.length : Int) > maxLen then pySliceTo (maxLen - 3) c8 ++ "...".data
  else c8

/-- A user-mention token minus its leading `<`. -/
def mentionTail (tail : List Char) : Prop :=
  ∃ bang ds, (bang = [] ∨ bang = ['!']) ∧ ds ≠ [] ∧ (∀ c ∈ ds, pyDigit c = true) ∧
    tail = '@' :: (bang ++ ds ++ ['>'])

/-- A channel-mention token minus its leading `<`. -/
def channelTail (tail : List Char) : Prop :=
  ∃ ds, ds ≠ [] ∧ (∀ c ∈ ds, pyDigit c = true) ∧ tail = '#' :: (ds ++ ['>'])

/-- A role-mention token minus its leading `<`. -/
def roleTail (tail : List Char) : Prop :=
  ∃ ds, ds ≠ [] ∧ (∀ c ∈ ds, pyDigit c = true) ∧ tail = '@' :: '&' :: (ds ++ ['>'])

/-- A custom-emoji token minus its leading `<`. -/
def emojiTail (tail : List Char) : Prop :=
  ∃ ao nm ds, (ao = [] ∨ ao = ['a']) ∧ nm ≠ [] ∧ (∀ c ∈ nm, pyWord c = true) ∧
    ds ≠ [] ∧ (∀ c ∈ ds, pyDigit c = true) ∧
    tail = ao ++ ':' :: (nm ++ ':' :: (ds ++ ['>']))

/-- The string contains a substring `<`-token of the given shape. -/
def containsTok (g : List Char → Prop) (l : List Char) : Prop :=
  ∃ a tail b, g tail ∧ l = a ++ '<' :: (tail ++ b)

/-- Characters that may occur in a user-mention token after the `<`. -/
def alphaMention (c : Char) : Bool := c = '@' || c = '!' || c = '>' || pyDigit c

/-- Characters that may occur in a channel token after the `<`. -/
def alphaChannel (c : Char) : Bool := c = '#' || c = '>' || pyDigit c

/-- Characters that may occur in a role token after the `<`. -/
def alphaRole (c : Char) : Bool := c = '@' || c = '&' || c = '>' || pyDigit c

end Sanitize

namespace Sanitize

theorem digitsGt_shape : ∀ l r, digitsGt l = some r →
    r.length < l.length ∧ ∃ pre, l = pre ++ r := by
  intro l
  induction l with
  | nil => intro r h; simp [digitsGt] at h
  | cons c cs ih =>
    intro r h
    simp only [digitsGt] at h
    by_cases hd : pyDigit c = true
    · rw [if_pos hd] at h
      obtain ⟨hlt, pre, hpre⟩ := ih r h
      exact ⟨Nat.lt_succ_of_lt hlt, c :: pre, by simp [hpre]⟩
    · rw [if_neg hd] at h
      by_cases hg : c = '>'
      · rw [if_pos hg] at h
        obtain rfl : cs = r := Option.some.inj h
        exact ⟨Nat.lt_succ_self _, [c], rfl⟩
      · rw [if_neg hg] at h
        exact absurd h (by simp)

theorem digits1Gt_shape : ∀ l r, digits1Gt l = some r →
    r.length < l.length ∧ ∃ pre, l = pre ++ r := by
  intro l
  cases l with
  | nil => intro r h; simp [digits1Gt] at h
  | cons c cs =>
    intro r h
    simp only [digits1Gt] at h
    by_cases hd : pyDigit c = true
    · rw [if_pos hd] at h
      obtain ⟨hlt, pre, hpre⟩ := digitsGt_shape cs r h
      exact ⟨Nat.lt_succ_of_lt hlt, c :: pre, by simp [hpre]⟩
    · rw [if_neg hd] at h
      exact absurd h (by simp)

theorem digitsGt_complete (ds b : List Char) (hds : ∀ c ∈ ds, pyDigit c = true) :
    digitsGt (ds ++ '>' :: b) = some b := by
  induction ds with
  | nil =>
    have h1 : pyDigit '>' = false := by decide
    simp [digitsGt, h1]
  | cons d ds ih =>
    have hd : pyDigit d = true := hds d (List.mem_cons_self _ _)
    simp only [List.cons_append, digitsGt, hd, if_true]
    exact ih (fun c hc => hds c (List.mem_cons_of_mem _ hc))

theorem digits1Gt_complete (ds b : List Char) (hne : ds ≠ [])
    (hds : ∀ c ∈ ds, pyDigit c = true) :
    digits1Gt (ds ++ '>' :: b) = some b := by
  cases ds with
  | nil => exact absurd rfl hne
  | cons d ds =>
    have hd : pyDigit d = true := hds d (List.mem_cons_self _ _)
    simp only [List.cons_append, digits1Gt, hd, if_true]
    exact digitsGt_complete ds b (fun c hc => hds c (List.mem_cons_of_mem _ hc))


theorem digits1Gt_map_eq {tl rep rest rp : List Char}
    (h : (digits1Gt tl).map (fun r => (rp, r)) = some (rep, rest)) :
    rep = rp ∧ digits1Gt tl = some rest := by
  cases hg : digits1Gt tl with
  | none => rw [hg] at h; simp at h
  | some r =>
    rw [hg] at h
    have h' := Option.some.inj h
    rw [Prod.mk.injEq] at h'
    exact ⟨h'.1.symm, congrArg some h'.2⟩

/-- What a successful `mMention` match tells us. -/
theorem mMention_shape : ∀ l rep rest, mMention l = some (rep, rest) →
    rep = replMention ∧ rest.length < l.length ∧ ∃ pre, l = pre ++ rest := by
  intro l rep rest h
  match l with
  | [] => simp [mMention] at h
  | [c1] => simp [mMention] at h
  | [c1, c2] => simp [mMention] at h
  | c1 :: c2 :: c3 :: tl =>
    by_cases h12 : c1 = '<' ∧ c2 = '@'
    · obtain ⟨h1, h2⟩ := h12
      subst h1; subst h2
      by_cases h3 : c3 = '!'
      · subst h3
        rw [show mMention ('<' :: '@' :: '!' :: tl) =
          (digits1Gt tl).map (fun r => (replMention, r)) from rfl] at h
        obtain ⟨hrep, hg⟩ := digits1Gt_map_eq h
        obtain ⟨hlt, pre, hpre⟩ := digits1Gt_shape tl rest hg
        exact ⟨hrep, by simp only [List.length_cons]; omega,
          '<' :: '@' :: '!' :: pre, by simp [hpre]⟩
      · rw [show mMention ('<' :: '@' :: c3 :: tl) =
          (if c3 = '!' then (digits1Gt tl).map (fun r => (replMention, r))
           else (digits1Gt (c3 :: tl)).map (fun r => (replMention, r))) from rfl] at h
        rw [if_neg h3] at h
        obtain ⟨hrep, hg⟩ := digits1Gt_map_eq h
        obtain ⟨hlt, pre, hpre⟩ := digits1Gt_shape (c3 :: tl) rest hg
        exact ⟨hrep, by simp only [List.length_cons] at hlt ⊢; omega,
          '<' :: '@' :: pre, by simp [hpre]⟩
    · have hcond : (decide (c1 = '<') && decide (c2 = '@')) = false := by
        by_contra hb
        rw [Bool.not_eq_false] at hb
        simp only [Bool.and_eq_true, decide_eq_true_eq] at hb
        exact h12 hb
      rw [show mMention (c1 :: c2 :: c3 :: tl) =
        (if c1 = '<' && c2 = '@' then
          (if c3 = '!' then (digits1Gt tl).map (fun r => (replMention, r))
           else (digits1Gt (c3 :: tl)).map (fun r => (replMention, r)))
         else none) from rfl] at h
      rw [hcond] at h
      simp at h

/-- What a successful `mChannel` match tells us. -/
theorem mChannel_shape : ∀ l rep rest, mChannel l = some (rep, rest) →
    rep = replChannel ∧ rest.length < l.length ∧ ∃ pre, l = pre ++ rest := by
  intro l rep rest h
  match l with
  | [] => simp [mChannel] at h
  | [c1] => simp [mChannel] at h
  | c1 :: c2 :: tl =>
    by_cases h12 : c1 = '<' ∧ c2 = '#'
    · obtain ⟨h1, h2⟩ := h12
      subst h1; subst h2
      rw [show mChannel ('<' :: '#' :: tl) =
        (digits1Gt tl).map (fun r => (replChannel, r)) from rfl] at h
      obtain ⟨hrep, hg⟩ := digits1Gt_map_eq h
      obtain ⟨hlt, pre, hpre⟩ := digits1Gt_shape tl rest hg
      exact ⟨hrep, by simp only [List.length_cons]; omega,
        '<' :: '#' :: pre, by simp [hpre]⟩
    · have hcond : (decide (c1 = '<') && decide (c2 = '#')) = false := by
        by_contra hb
        rw [Bool.not_eq_false] at hb
        simp only [Bool.and_eq_true, decide_eq_true_eq] at hb
        exact h12 hb
      rw [show mChannel (c1 :: c2 :: tl) =
        (if c1 = '<' && c2 = '#' then
          (digits1Gt tl).map (fun r => (replChannel, r)) else none) from rfl] at h
      rw [hcond] at h
      simp at h

/-- What a successful `mRole` match tells us. -/
theorem mRole_shape : ∀ l rep rest, mRole l = some (rep, rest) →
    rep = replRole ∧ rest.length < l.length ∧ ∃ pre, l = pre ++ rest := by
  intro l rep rest h
  match l with
  | [] => simp [mRole] at h
  | [c1] => simp [mRole] at h
  | [c1, c2] => simp [mRole] at h
  | c1 :: c2 :: c3 :: tl =>
    by_cases h123 : c1 = '<' ∧ c2 = '@' ∧ c3 = '&'
    · obtain ⟨h1, h2, h3⟩ := h123
      subst h1; subst h2; subst h3
      rw [show mRole ('<' :: '@' :: '&' :: tl) =
        (digits1Gt tl).map (fun r => (replRole, r)) from rfl] at h
      obtain ⟨hrep, hg⟩ := digits1Gt_map_eq h
      obtain ⟨hlt, pre, hpre⟩ := digits1Gt_shape tl rest hg
      exact ⟨hrep, by simp only [List.length_cons]; omega,
        '<' :: '@' :: '&' :: pre, by simp [hpre]⟩
    · have hcond : (decide (c1 = '<') && decide (c2 = '@') && decide (c3 = '&')) = false := by
        by_contra hb
        rw [Bool.not_eq_false] at hb
        simp only [Bool.and_eq_true, decide_eq_true_eq] at hb
        exact h123 ⟨hb.1.1, hb.1.2, hb.2⟩
      rw [show mRole (c1 :: c2 :: c3 :: tl) =
        (if c1 = '<' && c2 = '@' && c3 = '&' then
          (digits1Gt tl).map (fun r => (replRole, r)) else none) from rfl] at h
      rw [hcond] at h
      simp at h

theorem mem_takeWhile_pred {p : Char → Bool} :
    ∀ (l : List Char) (c : Char), c ∈ l.takeWhile p → p c = true := by
  intro l
  induction l with
  | nil => intro c hc; simp [List.takeWhile] at hc
  | cons x xs ih =>
    intro c hc
    rw [List.takeWhile_cons] at hc
    by_cases hx : p x = true
    · rw [if_pos hx] at hc
      rcases List.mem_cons.mp hc with h | h
      · rw [h]; exact hx
      · exact ih c h
    · rw [if_neg hx] at hc
      simp at hc

/-- What a successful `emojiAfterColon` match tells us. -/
theorem emojiAfterColon_shape : ∀ tl rep rest, emojiAfterColon tl = some (rep, rest) →
    (∃ nm, nm ≠ [] ∧ (∀ c ∈ nm, pyWord c = true) ∧ rep = ':' :: (nm ++ [':'])) ∧
      rest.length < tl.length ∧ ∃ pre, tl = pre ++ rest := by
  intro tl rep rest h
  unfold emojiAfterColon at h
  by_cases hne : (tl.takeWhile pyWord).isEmpty
  · rw [if_pos hne] at h
    simp at h
  · rw [if_neg hne] at h
    cases hr1 : tl.dropWhile pyWord with
    | nil =>
      rw [hr1] at h
      simp at h
    | cons c r2 =>
      rw [hr1] at h
      have h2 : (if c = ':' then
          (digits1Gt r2).map (fun r => (':' :: (tl.takeWhile pyWord ++ [':']), r))
        else none) = some (rep, rest) := h
      clear h
      by_cases hc : c = ':'
      · rw [if_pos hc] at h2
        obtain ⟨hrep, hg⟩ := digits1Gt_map_eq h2
        obtain ⟨hlt, pre, hpre⟩ := digits1Gt_shape r2 rest hg
        have hsplit : tl = tl.takeWhile pyWord ++ (c :: r2) := by
          rw [← hr1, List.takeWhile_append_dropWhile]
        have hnm : tl.takeWhile pyWord ≠ [] := by
          intro hcon
          rw [hcon] at hne
          exact hne rfl
        refine ⟨⟨tl.takeWhile pyWord, hnm,
            fun x hx => mem_takeWhile_pred tl x hx, hrep⟩, ?_, ?_⟩
        · have hlen : tl.length = (tl.takeWhile pyWord).length + (r2.length + 1) := by
            conv_lhs => rw [hsplit]
            simp
          omega
        · exact ⟨tl.takeWhile pyWord ++ (c :: pre), by
            conv_lhs => rw [hsplit]
            simp [hpre]⟩
      · rw [if_neg hc] at h2
        simp at h2

/-- What a successful `mEmoji` match tells us. -/
theorem mEmoji_shape : ∀ l rep rest, mEmoji l = some (rep, rest) →
    (∃ nm, nm ≠ [] ∧ (∀ c ∈ nm, pyWord c = true) ∧ rep = ':' :: (nm ++ [':'])) ∧
      rest.length < l.length ∧ ∃ pre, l = pre ++ rest := by
  intro l rep rest h
  match l with
  | [] => simp [mEmoji] at h
  | [c1] => simp [mEmoji] at h
  | c1 :: c2 :: tl =>
    by_cases h1 : c1 = '<'
    · subst h1
      by_cases h2 : c2 = ':'
      · subst h2
        rw [show mEmoji ('<' :: ':' :: tl) = emojiAfterColon tl from rfl] at h
        obtain ⟨hnm, hlt, pre, hpre⟩ := emojiAfterColon_shape tl rep rest h
        exact ⟨hnm, by simp only [List.length_cons]; omega,
          '<' :: ':' :: pre, by simp [hpre]⟩
      · by_cases h2a : c2 = 'a'
        · subst h2a
          rw [show mEmoji ('<' :: 'a' :: tl) = emojiColonThen tl from rfl] at h
          cases tl with
          | nil => simp [emojiColonThen] at h
          | cons c3 tl2 =>
            rw [show emojiColonThen (c3 :: tl2) =
              (if c3 = ':' then emojiAfterColon tl2 else none) from rfl] at h
            by_cases h3 : c3 = ':'
            · subst h3
              rw [if_pos rfl] at h
              obtain ⟨hnm, hlt, pre, hpre⟩ := emojiAfterColon_shape tl2 rep rest h
              exact ⟨hnm, by simp only [List.length_cons]; omega,
                '<' :: 'a' :: ':' :: pre, by simp [hpre]⟩
            · rw [if_neg h3] at h
              exact absurd h (by simp)
        · rw [show mEmoji ('<' :: c2 :: tl) =
            (if c2 = ':' then emojiAfterColon tl
             else if c2 = 'a' then emojiColonThen tl else none) from rfl] at h
          rw [if_neg h2, if_neg h2a] at h
          exact absurd h (by simp)
    · rw [show mEmoji (c1 :: c2 :: tl) =
        (if c1 = '<' then
          (if c2 = ':' then emojiAfterColon tl
           else if c2 = 'a' then emojiColonThen tl else none)
         else none) from rfl] at h
      rw [if_neg h1] at h
      exact absurd h (by simp)

end Sanitize

namespace Sanitize

theorem mentionTail_alpha : ∀ tail, mentionTail tail → ∀ c ∈ tail, alphaMention c = true := by
  rintro tail ⟨bang, ds, hbang, _, hds, rfl⟩ c hc
  rcases List.mem_cons.mp hc with rfl | hc
  · decide
  rcases List.mem_append.mp hc with hc2 | hc2
  · rcases List.mem_append.mp hc2 with hc3 | hc3
    · rcases hbang with rfl | rfl
      · simp at hc3
      · rcases List.mem_singleton.mp hc3 with rfl
        decide
    · simp [alphaMention, hds c hc3]
  · rcases List.mem_singleton.mp hc2 with rfl
    decide

theorem channelTail_alpha : ∀ tail, channelTail tail → ∀ c ∈ tail, alphaChannel c = true := by
  rintro tail ⟨ds, _, hds, rfl⟩ c hc
  rcases List.mem_cons.mp hc with rfl | hc
  · decide
  rcases List.mem_append.mp hc with hc2 | hc2
  · simp [alphaChannel, hds c hc2]
  · rcases List.mem_singleton.mp hc2 with rfl
    decide

theorem roleTail_alpha : ∀ tail, roleTail tail → ∀ c ∈ tail, alphaRole c = true := by
  rintro tail ⟨ds, _, hds, rfl⟩ c hc
  rcases List.mem_cons.mp hc with rfl | hc2
  · decide
  · rcases List.mem_cons.mp hc2 with rfl | hc3
    · decide
    · rcases List.mem_append.mp hc3 with hc4 | hc4
      · simp [alphaRole, hds c hc4]
      · rcases List.mem_singleton.mp hc4 with rfl
        decide

/-- A complete user-mention token at the head is always matched. -/
theorem mMention_complete : ∀ tail b, mentionTail tail →
    mMention ('<' :: (tail ++ b)) ≠ none := by
  rintro tail b ⟨bang, ds, hbang, hne, hds, rfl⟩
  rcases hbang with rfl | rfl
  · cases ds with
    | nil => exact absurd rfl hne
    | cons d ds' =>
      have hshape : (('@' :: (([] : List Char) ++ (d :: ds') ++ ['>'])) ++ b) =
          '@' :: d :: (ds' ++ '>' :: b) := by simp
      rw [hshape]
      have hd : pyDigit d = true := hds d (List.mem_cons_self _ _)
      have hdne : d ≠ '!' := by
        intro hcon
        rw [hcon] at hd
        exact absurd hd (by decide)
      rw [show mMention ('<' :: '@' :: d :: (ds' ++ '>' :: b)) =
        (if d = '!' then (digits1Gt (ds' ++ '>' :: b)).map (fun r => (replMention, r))
         else (digits1Gt (d :: (ds' ++ '>' :: b))).map (fun r => (replMention, r)))
        from rfl]
      rw [if_neg hdne]
      rw [show d :: (ds' ++ '>' :: b) = (d :: ds') ++ '>' :: b from rfl]
      rw [digits1Gt_complete (d :: ds') b (by simp) hds]
      simp
  · have hshape : (('@' :: ((['!'] ++ ds) ++ ['>'])) ++ b) =
        '@' :: '!' :: (ds ++ '>' :: b) := by simp
    rw [hshape]
    rw [show mMention ('<' :: '@' :: '!' :: (ds ++ '>' :: b)) =
      (digits1Gt (ds ++ '>' :: b)).map (fun r => (replMention, r)) from rfl]
    rw [digits1Gt_complete ds b hne hds]
    simp

/-- A complete channel token at the head is always matched. -/
theorem mChannel_complete : ∀ tail b, channelTail tail →
    mChannel ('<' :: (tail ++ b)) ≠ none := by
  rintro tail b ⟨ds, hne, hds, rfl⟩
  have hshape : (('#' :: (ds ++ ['>'])) ++ b) = '#' :: (ds ++ '>' :: b) := by simp
  rw [hshape]
  rw [show mChannel ('<' :: '#' :: (ds ++ '>' :: b)) =
    (digits1Gt (ds ++ '>' :: b)).map (fun r => (replChannel, r)) from rfl]
  rw [digits1Gt_complete ds b hne hds]
  simp

/-- A complete role token at the head is always matched. -/
theorem mRole_complete : ∀ tail b, roleTail tail →
    mRole ('<' :: (tail ++ b)) ≠ none := by
  rintro tail b ⟨ds, hne, hds, rfl⟩
  have hshape : (('@' :: '&' :: (ds ++ ['>'])) ++ b) =
      '@' :: '&' :: (ds ++ '>' :: b) := by simp
  rw [hshape]
  rw [show mRole ('<' :: '@' :: '&' :: (ds ++ '>' :: b)) =
    (digits1Gt (ds ++ '>' :: b)).map (fun r => (replRole, r)) from rfl]
  rw [digits1Gt_complete ds b hne hds]
  simp

/-- If a token occurrence sits in `u ++ v` and `u` is free of `<`, the
occurrence sits entirely in `v`. -/
theorem append_split_on_lt : ∀ (u : List Char) {v a tail b : List Char},
    u ++ v = a ++ '<' :: (tail ++ b) → '<' ∉ u →
    ∃ a', a = u ++ a' ∧ v = a' ++ '<' :: (tail ++ b) := by
  intro u
  induction u with
  | nil => intro v a tail b h _; exact ⟨a, rfl, h⟩
  | cons x u' ih =>
    intro v a tail b h hlt
    cases a with
    | nil =>
      rw [List.cons_append, List.nil_append] at h
      injection h with h1 h2
      exact absurd (h1 ▸ List.mem_cons_self x u') hlt
    | cons a0 a' =>
      rw [List.cons_append, List.cons_append] at h
      injection h with h1 h2
      obtain ⟨a'', ha'', hv⟩ := ih h2 (fun hm => hlt (List.mem_cons_of_mem _ hm))
      refine ⟨a'', ?_, hv⟩
      rw [List.cons_append, ← h1, ha'']

/-- If the scanner output starts with a run of characters the replacement
heads can never produce, that run is copied literally from the input. -/
theorem reSub_literal_head
    (m : List Char → Option (List Char × List Char)) (P : Char → Bool)
    (hrep : ∀ l rep rest, m l = some (rep, rest) →
      ∃ r0 rs, rep = r0 :: rs ∧ P r0 = false) :
    ∀ (fuel : Nat) (cs w b : List Char), (∀ c ∈ w, P c = true) →
      reSub m fuel cs = w ++ b → ∃ b2, cs = w ++ b2 := by
  intro fuel
  induction fuel with
  | zero => intro cs w b _ h; exact ⟨b, h⟩
  | succ fuel ih =>
    intro cs w b hw h
    cases cs with
    | nil =>
      have h0 : ([] : List Char) = w ++ b := h
      cases w with
      | nil => exact ⟨[], rfl⟩
      | cons w0 w' => exact absurd h0 (by simp)
    | cons c cs' =>
      cases hm : m (c :: cs') with
      | some pr =>
        obtain ⟨rep, rest⟩ := pr
        have hstep : reSub m (fuel + 1) (c :: cs') = rep ++ reSub m fuel rest := by
          simp only [reSub, hm]
        rw [hstep] at h
        cases w with
        | nil => exact ⟨c :: cs', rfl⟩
        | cons w0 w' =>
          obtain ⟨r0, rs, hrepE, hP0⟩ := hrep _ _ _ hm
          rw [hrepE, List.cons_append] at h
          rw [List.cons_append] at h
          injection h with h1 _
          rw [← h1] at hw
          exact absurd (hw r0 (List.mem_cons_self _ _)) (by simp [hP0])
      | none =>
        have hstep : reSub m (fuel + 1) (c :: cs') = c :: reSub m fuel cs' := by
          simp only [reSub, hm]
        rw [hstep] at h
        cases w with
        | nil => exact ⟨c :: cs', rfl⟩
        | cons w0 w' =>
          rw [List.cons_append] at h
          injection h with h1 h2
          obtain ⟨b2, hcs⟩ := ih cs' w' b (fun x hx => hw x (List.mem_cons_of_mem _ hx)) h2
          refine ⟨b2, ?_⟩
          rw [List.cons_append, h1, hcs]

/-- Master analysis of the scanners: a token of shape `g` surviving in the
output of `reSub m` was already present in the input, at a suffix position
where the matcher declined to match. -/
theorem reSub_tok_analysis
    (m : List Char → Option (List Char × List Char))
    (g : List Char → Prop) (P : Char → Bool)
    (hg : ∀ tail, g tail → ∀ c ∈ tail, P c = true)
    (hrep : ∀ l rep rest, m l = some (rep, rest) →
      ('<' ∉ rep) ∧ (∃ r0 rs, rep = r0 :: rs ∧ P r0 = false) ∧
        rest.length < l.length ∧ ∃ pre, l = pre ++ rest) :
    ∀ (fuel : Nat) (l : List Char), l.length ≤ fuel →
      containsTok g (reSub m fuel l) →
      ∃ a tail b, g tail ∧ l = a ++ '<' :: (tail ++ b) ∧
        m ('<' :: (tail ++ b)) = none := by
  intro fuel
  induction fuel with
  | zero =>
    intro l hlen htok
    have hl : l = [] := List.length_eq_zero.mp (Nat.le_zero.mp hlen)
    subst hl
    obtain ⟨a, tail, b, hgt, heq⟩ := htok
    have h0 : ([] : List Char) = a ++ '<' :: (tail ++ b) := heq
    exact absurd h0.symm (by simp)
  | succ fuel ih =>
    intro l hlen htok
    cases l with
    | nil =>
      obtain ⟨a, tail, b, hgt, heq⟩ := htok
      have h0 : ([] : List Char) = a ++ '<' :: (tail ++ b) := heq
      exact absurd h0.symm (by simp)
    | cons c cs =>
      cases hm : m (c :: cs) with
      | some pr =>
        obtain ⟨rep, rest⟩ := pr
        obtain ⟨hltm, _, hlen', pre, hpre⟩ := hrep _ _ _ hm
        have hstep : reSub m (fuel + 1) (c :: cs) = rep ++ reSub m fuel rest := by
          simp only [reSub, hm]
        obtain ⟨a, tail, b, hgt, heq⟩ := htok
        rw [hstep] at heq
        obtain ⟨a', _, hv⟩ := append_split_on_lt rep heq hltm
        have htok' : containsTok g (reSub m fuel rest) := ⟨a', tail, b, hgt, hv⟩
        have hlenr : rest.length ≤ fuel := by
          simp only [List.length_cons] at hlen hlen'
          omega
        obtain ⟨a2, tail2, b2, hg2, hl2, hnone⟩ := ih rest hlenr htok'
        refine ⟨pre ++ a2, tail2, b2, hg2, ?_, hnone⟩
        rw [hpre, hl2, List.append_assoc]
      | none =>
        have hstep : reSub m (fuel + 1) (c :: cs) = c :: reSub m fuel cs := by
          simp only [reSub, hm]
        obtain ⟨a, tail, b, hgt, heq⟩ := htok
        rw [hstep] at heq
        cases a with
        | nil =>
          rw [List.nil_append] at heq
          injection heq with h1 h2
          obtain ⟨b2, hcs⟩ := reSub_literal_head m P
            (fun l rep rest hm' => (hrep l rep rest hm').2.1)
            fuel cs tail b (hg tail hgt) h2
          refine ⟨[], tail, b2, hgt, ?_, ?_⟩
          · rw [List.nil_append, h1, hcs]
          · have hrwr : c :: cs = '<' :: (tail ++ b2) := by rw [h1, hcs]
            rw [← hrwr]
            exact hm
        | cons a0 a' =>
          rw [List.cons_append] at heq
          injection heq with h1 h2
          have htok' : containsTok g (reSub m fuel cs) := ⟨a', tail, b, hgt, h2⟩
          have hlenr : cs.length ≤ fuel := by
            simp only [List.length_cons] at hlen
            omega
          obtain ⟨a2, tail2, b2, hg2, hl2, hnone⟩ := ih cs hlenr htok'
          refine ⟨c :: a2, tail2, b2, hg2, ?_, hnone⟩
          rw [List.cons_append, hl2]

end Sanitize

namespace Sanitize

theorem mMention_hrep (P : Char → Bool) (hP : P '[' = false) :
    ∀ l rep rest, mMention l = some (rep, rest) →
      ('<' ∉ rep) ∧ (∃ r0 rs, rep = r0 :: rs ∧ P r0 = false) ∧
        rest.length < l.length ∧ ∃ pre, l = pre ++ rest := by
  intro l rep rest h
  obtain ⟨hrep, hlt, pre, hpre⟩ := mMention_shape l rep rest h
  subst hrep
  exact ⟨by decide, ⟨'[', "mention]".data, rfl, hP⟩, hlt, pre, hpre⟩

theorem mChannel_hrep (P : Char → Bool) (hP : P '[' = false) :
    ∀ l rep rest, mChannel l = some (rep, rest) →
      ('<' ∉ rep) ∧ (∃ r0 rs, rep = r0 :: rs ∧ P r0 = false) ∧
        rest.length < l.length ∧ ∃ pre, l = pre ++ rest := by
  intro l rep rest h
  obtain ⟨hrep, hlt, pre, hpre⟩ := mChannel_shape l rep rest h
  subst hrep
  exact ⟨by decide, ⟨'[', "channel]".data, rfl, hP⟩, hlt, pre, hpre⟩

theorem mRole_hrep (P : Char → Bool) (hP : P '[' = false) :
    ∀ l rep rest, mRole l = some (rep, rest) →
      ('<' ∉ rep) ∧ (∃ r0 rs, rep = r0 :: rs ∧ P r0 = false) ∧
        rest.length < l.length ∧ ∃ pre, l = pre ++ rest := by
  intro l rep rest h
  obtain ⟨hrep, hlt, pre, hpre⟩ := mRole_shape l rep rest h
  subst hrep
  exact ⟨by decide, ⟨'[', "role]".data, rfl, hP⟩, hlt, pre, hpre⟩

theorem mEmoji_hrep (P : Char → Bool) (hP : P ':' = false) :
    ∀ l rep rest, mEmoji l = some (rep, rest) →
      ('<' ∉ rep) ∧ (∃ r0 rs, rep = r0 :: rs ∧ P r0 = false) ∧
        rest.length < l.length ∧ ∃ pre, l = pre ++ rest := by
  intro l rep rest h
  obtain ⟨⟨nm, hne, hnm, hrepE⟩, hlt, pre, hpre⟩ := mEmoji_shape l rep rest h
  subst hrepE
  refine ⟨?_, ⟨':', nm ++ [':'], rfl, hP⟩, hlt, pre, hpre⟩
  intro hmem
  rcases List.mem_cons.mp hmem with hq | hq
  · exact absurd hq (by decide)
  · rcases List.mem_append.mp hq with hq2 | hq2
    · exact absurd (hnm '<' hq2) (by decide)
    · exact absurd (List.mem_singleton.mp hq2) (by decide)

/-- After its own pass, no user-mention token remains. -/
theorem sub_mentions_clean (l : List Char) :
    ¬ containsTok mentionTail (reSub mMention l.length l) := by
  intro htok
  obtain ⟨a, tail, b, hgt, _, hnone⟩ := reSub_tok_analysis mMention mentionTail
    alphaMention mentionTail_alpha (mMention_hrep alphaMention (by decide))
    l.length l le_rfl htok
  exact mMention_complete tail b hgt hnone

/-- After its own pass, no channel token remains. -/
theorem sub_channels_clean (l : List Char) :
    ¬ containsTok channelTail (reSub mChannel l.length l) := by
  intro htok
  obtain ⟨a, tail, b, hgt, _, hnone⟩ := reSub_tok_analysis mChannel channelTail
    alphaChannel channelTail_alpha (mChannel_hrep alphaChannel (by decide))
    l.length l le_rfl htok
  exact mChannel_complete tail b hgt hnone

/-- After its own pass, no role token remains. -/
theorem sub_roles_clean (l : List Char) :
    ¬ containsTok roleTail (reSub mRole l.length l) := by
  intro htok
  obtain ⟨a, tail, b, hgt, _, hnone⟩ := reSub_tok_analysis mRole roleTail
    alphaRole roleTail_alpha (mRole_hrep alphaRole (by decide))
    l.length l le_rfl htok
  exact mRole_complete tail b hgt hnone

/-- A scanner pass whose replacements cannot feed a token shape only
preserves absence of that shape. -/
theorem reSub_tok_lift {m : List Char → Option (List Char × List Char)}
    {g : List Char → Prop} {P : Char → Bool}
    (hg : ∀ tail, g tail → ∀ c ∈ tail, P c = true)
    (hrep : ∀ l rep rest, m l = some (rep, rest) →
      ('<' ∉ rep) ∧ (∃ r0 rs, rep = r0 :: rs ∧ P r0 = false) ∧
        rest.length < l.length ∧ ∃ pre, l = pre ++ rest)
    {fuel : Nat} {l : List Char} (hlen : l.length ≤ fuel) :
    containsTok g (reSub m fuel l) → containsTok g l := by
  intro htok
  obtain ⟨a, tail, b, hgt, heq, _⟩ :=
    reSub_tok_analysis m g P hg hrep fuel l hlen htok
  exact ⟨a, tail, b, hgt, heq⟩

theorem map_literal_head (P : Char → Bool) (f : Char → Char)
    (hf : ∀ c, f c = c ∨ P (f c) = false) :
    ∀ (cs w b : List Char), (∀ c ∈ w, P c = true) →
      cs.map f = w ++ b → ∃ b2, cs = w ++ b2 := by
  intro cs
  induction cs with
  | nil =>
    intro w b hw h
    cases w with
    | nil => exact ⟨[], rfl⟩
    | cons w0 w' => simp at h
  | cons c cs' ih =>
    intro w b hw h
    cases w with
    | nil => exact ⟨c :: cs', rfl⟩
    | cons w0 w' =>
      rw [List.map_cons, List.cons_append] at h
      injection h with h1 h2
      obtain ⟨b2, hcs⟩ := ih w' b (fun x hx => hw x (List.mem_cons_of_mem _ hx)) h2
      have hc : c = w0 := by
        rcases hf c with hfc | hfc
        · rw [← hfc]; exact h1
        · rw [h1] at hfc
          exact absurd (hw w0 (List.mem_cons_self _ _)) (by simp [hfc])
      exact ⟨b2, by rw [List.cons_append, hc, hcs]⟩

/-- A character substitution that never produces token characters preserves
absence of a token shape. -/
theorem map_tok_lift (g : List Char → Prop) (P : Char → Bool)
    (hg : ∀ tail, g tail → ∀ c ∈ tail, P c = true)
    (f : Char → Char)
    (hf : ∀ c, f c = c ∨ (f c ≠ '<' ∧ P (f c) = false)) :
    ∀ l, containsTok g (l.map f) → containsTok g l := by
  intro l
  induction l with
  | nil =>
    intro htok
    obtain ⟨a, tail, b, hgt, heq⟩ := htok
    have h0 : ([] : List Char) = a ++ '<' :: (tail ++ b) := heq
    exact absurd h0.symm (by simp)
  | cons c cs ih =>
    intro htok
    obtain ⟨a, tail, b, hgt, heq⟩ := htok
    rw [List.map_cons] at heq
    cases a with
    | nil =>
      rw [List.nil_append] at heq
      injection heq with h1 h2
      have hc : c = '<' := by
        rcases hf c with hfc | hfc
        · rw [← hfc]; exact h1
        · exact absurd h1 hfc.1
      obtain ⟨b2, hcs⟩ := map_literal_head P f
        (fun x => (hf x).imp id And.right) cs tail b (hg tail hgt) h2
      exact ⟨[], tail, b2, hgt, by rw [List.nil_append, hc, hcs]⟩
    | cons a0 a' =>
      rw [List.cons_append] at heq
      injection heq with h1 h2
      obtain ⟨a2, tail2, b2, hg2, hl2⟩ := ih ⟨a', tail, b, hgt, h2⟩
      exact ⟨c :: a2, tail2, b2, hg2, by rw [List.cons_append, hl2]⟩

end Sanitize

namespace Sanitize

theorem collapse_literal_head (P : Char → Bool)
    (hsp : ∀ c, pySpace c = true → P c = false) :
    ∀ (cs w b : List Char), (∀ c ∈ w, P c = true) →
      collapseWsGo cs false = w ++ b → ∃ b2, cs = w ++ b2 := by
  intro cs
  induction cs with
  | nil =>
    intro w b hw h
    have h0 : ([] : List Char) = w ++ b := h
    cases w with
    | nil => exact ⟨[], rfl⟩
    | cons w0 w' => exact absurd h0.symm (by simp)
  | cons c cs' ih =>
    intro w b hw h
    by_cases hc : pySpace c = true
    · have hstep : collapseWsGo (c :: cs') false = ' ' :: collapseWsGo cs' true := by
        simp only [collapseWsGo, hc, if_true]
        rw [if_neg (by simp)]
      rw [hstep] at h
      cases w with
      | nil => exact ⟨c :: cs', rfl⟩
      | cons w0 w' =>
        rw [List.cons_append] at h
        injection h with h1 _
        have : P ' ' = false := hsp ' ' (by decide)
        rw [← h1] at hw
        exact absurd (hw ' ' (List.mem_cons_self _ _)) (by simp [this])
    · have hstep : collapseWsGo (c :: cs') false = c :: collapseWsGo cs' false := by
        simp only [collapseWsGo, hc]
        rw [if_neg (by simp [hc])]
      rw [hstep] at h
      cases w with
      | nil => exact ⟨c :: cs', rfl⟩
      | cons w0 w' =>
        rw [List.cons_append] at h
        injection h with h1 h2
        obtain ⟨b2, hcs⟩ := ih w' b (fun x hx => hw x (List.mem_cons_of_mem _ hx)) h2
        exact ⟨b2, by rw [List.cons_append, h1, hcs]⟩

/-- Absence of a token in the input implies absence in the input's tail,
cons form of `containsTok`. -/
theorem containsTok_cons {g : List Char → Prop} {c : Char} {l : List Char} :
    containsTok g l → containsTok g (c :: l) := by
  rintro ⟨a, tail, b, hgt, rfl⟩
  exact ⟨c :: a, tail, b, hgt, rfl⟩

/-- Whitespace collapsing preserves absence of a (space-free) token shape. -/
theorem collapse_tok_lift (g : List Char → Prop) (P : Char → Bool)
    (hg : ∀ tail, g tail → ∀ c ∈ tail, P c = true)
    (hsp : ∀ c, pySpace c = true → P c = false) :
    ∀ (l : List Char) (flag : Bool),
      containsTok g (collapseWsGo l flag) → containsTok g l := by
  intro l
  induction l with
  | nil =>
    intro flag htok
    obtain ⟨a, tail, b, hgt, heq⟩ := htok
    have h0 : ([] : List Char) = a ++ '<' :: (tail ++ b) := heq
    exact absurd h0.symm (by simp)
  | cons c cs ih =>
    intro flag htok
    by_cases hc : pySpace c = true
    · cases flag with
      | true =>
        have hstep : collapseWsGo (c :: cs) true = collapseWsGo cs true := by
          simp only [collapseWsGo, hc, if_true]
        rw [hstep] at htok
        exact containsTok_cons (ih true htok)
      | false =>
        have hstep : collapseWsGo (c :: cs) false = ' ' :: collapseWsGo cs true := by
          simp only [collapseWsGo, hc, if_true]
          rw [if_neg (by simp)]
        rw [hstep] at htok
        obtain ⟨a, tail, b, hgt, heq⟩ := htok
        cases a with
        | nil =>
          rw [List.nil_append] at heq
          injection heq with h1 _
          exact absurd h1 (by decide)
        | cons a0 a' =>
          rw [List.cons_append] at heq
          injection heq with _ h2
          exact containsTok_cons (ih true ⟨a', tail, b, hgt, h2⟩)
    · have hstep : collapseWsGo (c :: cs) flag = c :: collapseWsGo cs false := by
        cases flag <;>
          · simp only [collapseWsGo, hc]
            rw [if_neg (by simp [hc])]
      rw [hstep] at htok
      obtain ⟨a, tail, b, hgt, heq⟩ := htok
      cases a with
      | nil =>
        rw [List.nil_append] at heq
        injection heq with h1 h2
        obtain ⟨b2, hcs⟩ := collapse_literal_head P hsp cs tail b (hg tail hgt) h2
        exact ⟨[], tail, b2, hgt, by rw [List.nil_append, h1, hcs]⟩
      | cons a0 a' =>
        rw [List.cons_append] at heq
        injection heq with _ h2
        exact containsTok_cons (ih false ⟨a', tail, b, hgt, h2⟩)

/-- `pyStrip l` is a contiguous piece of `l`. -/
theorem pyStrip_segment (l : List Char) : ∃ a b, l = a ++ (pyStrip l ++ b) := by
  unfold pyStrip dropTrailWs
  refine ⟨l.takeWhile pySpace,
    ((l.dropWhile pySpace).reverse.takeWhile pySpace).reverse, ?_⟩
  conv_lhs => rw [← List.takeWhile_append_dropWhile (p := pySpace) (l := l)]
  congr 1
  conv_lhs => rw [← List.reverse_reverse (l.dropWhile pySpace)]
  rw [← List.reverse_append]
  congr 1
  rw [List.takeWhile_append_dropWhile]

/-- A token inside a contiguous piece of `l` is a token inside `l`. -/
theorem containsTok_of_segment {g : List Char → Prop} {x l : List Char}
    (hseg : ∃ u v, l = u ++ (x ++ v)) :
    containsTok g x → containsTok g l := by
  rintro ⟨a, tail, b, hgt, rfl⟩
  obtain ⟨u, v, rfl⟩ := hseg
  exact ⟨u ++ a, tail, b ++ v, hgt, by simp⟩

/-- Appending token-free junk (like `"..."`) cannot create a token. -/
theorem append_junk_tok_lift (g : List Char → Prop) (P : Char → Bool)
    (hg : ∀ tail, g tail → ∀ c ∈ tail, P c = true)
    (v : List Char) (hv : ∀ c ∈ v, P c = false ∧ c ≠ '<') :
    ∀ u, containsTok g (u ++ v) → containsTok g u := by
  intro u
  induction u with
  | nil =>
    intro htok
    obtain ⟨a, tail, b, hgt, heq⟩ := htok
    rw [List.nil_append] at heq
    have : '<' ∈ v := by
      rw [heq]
      exact List.mem_append.mpr (Or.inr (List.mem_cons_self _ _))
    exact absurd rfl (hv '<' this).2
  | cons c u' ih =>
    intro htok
    obtain ⟨a, tail, b, hgt, heq⟩ := htok
    rw [List.cons_append] at heq
    cases a with
    | nil =>
      rw [List.nil_append] at heq
      injection heq with h1 h2
      -- the token tail sits inside u' (its chars are not junk chars)
      have hjunk : ∀ (w b' : List Char), (∀ x ∈ w, P x = true) →
          u' ++ v = w ++ b' → ∃ b2, u' = w ++ b2 := by
        clear h2 ih h1 hgt
        induction u' with
        | nil =>
          intro w b' hw hsplit
          cases w with
          | nil => exact ⟨[], rfl⟩
          | cons w0 w'' =>
            rw [List.nil_append] at hsplit
            have : w0 ∈ v := by
              rw [hsplit]
              exact List.mem_cons_self _ _
            have hP := (hv w0 this).1
            exact absurd (hw w0 (List.mem_cons_self _ _)) (by simp [hP])
        | cons x u'' ihu =>
          intro w b' hw hsplit
          cases w with
          | nil => exact ⟨x :: u'', rfl⟩
          | cons w0 w'' =>
            rw [List.cons_append, List.cons_append] at hsplit
            injection hsplit with hs1 hs2
            obtain ⟨b2, hcs⟩ := ihu w'' b'
              (fun y hy => hw y (List.mem_cons_of_mem _ hy)) hs2
            exact ⟨b2, by rw [List.cons_append, hs1, hcs]⟩
      obtain ⟨b2, hcs⟩ := hjunk tail b (hg tail hgt) h2
      exact ⟨[], tail, b2, hgt, by rw [List.nil_append, h1, hcs]⟩
    | cons a0 a' =>
      injection heq with _ h2
      exact containsTok_cons (ih ⟨a', tail, b, hgt, h2⟩)

end Sanitize

namespace Sanitize

/-- A scanner pass never introduces a character absent from both the input
and every replacement text. -/
theorem reSub_not_mem (m : List Char → Option (List Char × List Char)) (x : Char)
    (hx : ∀ l rep rest, m l = some (rep, rest) → x ∉ rep ∧ ∃ pre, l = pre ++ rest) :
    ∀ (fuel : Nat) (l : List Char), x ∉ l → x ∉ reSub m fuel l := by
  intro fuel
  induction fuel with
  | zero => intro l h; exact h
  | succ fuel ih =>
    intro l hxl
    cases l with
    | nil =>
      have h0 : reSub m (fuel + 1) [] = [] := rfl
      rw [h0]
      simp
    | cons c cs =>
      cases hm : m (c :: cs) with
      | some pr =>
        obtain ⟨rep, rest⟩ := pr
        have hstep : reSub m (fuel + 1) (c :: cs) = rep ++ reSub m fuel rest := by
          simp only [reSub, hm]
        rw [hstep]
        intro hmem
        rcases List.mem_append.mp hmem with h | h
        · exact (hx _ _ _ hm).1 h
        · obtain ⟨pre, hpre⟩ := (hx _ _ _ hm).2
          have hrest : x ∉ rest := fun hr =>
            hxl (by rw [hpre]; exact List.mem_append.mpr (Or.inr hr))
          exact ih rest hrest h
      | none =>
        have hstep : reSub m (fuel + 1) (c :: cs) = c :: reSub m fuel cs := by
          simp only [reSub, hm]
        rw [hstep]
        intro hmem
        rcases List.mem_cons.mp hmem with rfl | h
        · exact hxl (List.mem_cons_self _ _)
        · exact ih cs (fun hcs => hxl (List.mem_cons_of_mem _ hcs)) h

theorem mMention_backslash_free :
    ∀ l rep rest, mMention l = some (rep, rest) → '\\' ∉ rep ∧ ∃ pre, l = pre ++ rest := by
  intro l rep rest h
  obtain ⟨hrepE, _, hpre⟩ := mMention_shape l rep rest h
  subst hrepE
  exact ⟨by decide, hpre⟩

theorem mChannel_backslash_free :
    ∀ l rep rest, mChannel l = some (rep, rest) → '\\' ∉ rep ∧ ∃ pre, l = pre ++ rest := by
  intro l rep rest h
  obtain ⟨hrepE, _, hpre⟩ := mChannel_shape l rep rest h
  subst hrepE
  exact ⟨by decide, hpre⟩

theorem mRole_backslash_free :
    ∀ l rep rest, mRole l = some (rep, rest) → '\\' ∉ rep ∧ ∃ pre, l = pre ++ rest := by
  intro l rep rest h
  obtain ⟨hrepE, _, hpre⟩ := mRole_shape l rep rest h
  subst hrepE
  exact ⟨by decide, hpre⟩

theorem mEmoji_backslash_free :
    ∀ l rep rest, mEmoji l = some (rep, rest) → '\\' ∉ rep ∧ ∃ pre, l = pre ++ rest := by
  intro l rep rest h
  obtain ⟨⟨nm, _, hnm, hrepE⟩, _, hpre⟩ := mEmoji_shape l rep rest h
  subst hrepE
  refine ⟨?_, hpre⟩
  intro hmem
  rcases List.mem_cons.mp hmem with hq | hq
  · exact absurd hq (by decide)
  · rcases List.mem_append.mp hq with hq2 | hq2
    · exact absurd (hnm '\\' hq2) (by decide)
    · exact absurd (List.mem_singleton.mp hq2) (by decide)

/-- The regex passes never introduce a backslash. -/
theorem regexStages_backslash_free (content : List Char) (h : '\\' ∉ content) :
    '\\' ∉ regexStages content := by
  unfold regexStages
  apply reSub_not_mem mEmoji '\\' mEmoji_backslash_free
  apply reSub_not_mem mRole '\\' mRole_backslash_free
  apply reSub_not_mem mChannel '\\' mChannel_backslash_free
  exact reSub_not_mem mMention '\\' mMention_backslash_free _ _ h

/-- `quoteMap` only turns quotes into apostrophes. -/
theorem quoteMap_backslash_free (l : List Char) (h : '\\' ∉ l) :
    '\\' ∉ quoteMap l := by
  unfold quoteMap
  intro hmem
  obtain ⟨c, hc, hfc⟩ := List.mem_map.mp hmem
  by_cases hq : c = '"'
  · rw [if_pos hq] at hfc
    exact absurd hfc (by decide)
  · rw [if_neg hq] at hfc
    exact h (hfc ▸ hc)

/-- With no backslash upstream, the backslash filter is the identity. -/
theorem dropBackslashes_id (l : List Char) (h : '\\' ∉ l) :
    dropBackslashes l = l := by
  unfold dropBackslashes
  apply List.filter_eq_self.mpr
  intro a ha
  simp only [Bool.not_eq_true']
  by_cases hb : a = '\\'
  · exact absurd (hb ▸ ha) h
  · simp [hb]

/-- Characters of the collapsed text are spaces or input characters. -/
theorem collapse_mem (x : Char) :
    ∀ (l : List Char) (flag : Bool), x ∈ collapseWsGo l flag → x = ' ' ∨ x ∈ l := by
  intro l
  induction l with
  | nil => intro flag h; simp [collapseWsGo] at h
  | cons c cs ih =>
    intro flag h
    by_cases hc : pySpace c = true
    · cases flag with
      | true =>
        have hstep : collapseWsGo (c :: cs) true = collapseWsGo cs true := by
          simp only [collapseWsGo, hc, if_true]
        rw [hstep] at h
        rcases ih true h with h' | h'
        · exact Or.inl h'
        · exact Or.inr (List.mem_cons_of_mem _ h')
      | false =>
        have hstep : collapseWsGo (c :: cs) false = ' ' :: collapseWsGo cs true := by
          simp only [collapseWsGo, hc, if_true]
          rw [if_neg (by simp)]
        rw [hstep] at h
        rcases List.mem_cons.mp h with rfl | h'
        · exact Or.inl rfl
        · rcases ih true h' with h'' | h''
          · exact Or.inl h''
          · exact Or.inr (List.mem_cons_of_mem _ h'')
    · have hstep : collapseWsGo (c :: cs) flag = c :: collapseWsGo cs false := by
        cases flag <;>
          · simp only [collapseWsGo, hc]
            rw [if_neg (by simp [hc])]
      rw [hstep] at h
      rcases List.mem_cons.mp h with rfl | h'
      · exact Or.inr (List.mem_cons_self _ _)
      · rcases ih false h' with h'' | h''
        · exact Or.inl h''
        · exact Or.inr (List.mem_cons_of_mem _ h'')

/-- Stripping only removes characters. -/
theorem pyStrip_mem {x : Char} {l : List Char} (h : x ∈ pyStrip l) : x ∈ l := by
  obtain ⟨a, b, hab⟩ := pyStrip_segment l
  rw [hab]
  exact List.mem_append.mpr (Or.inr (List.mem_append.mpr (Or.inl h)))

/-- Slicing only removes characters. -/
theorem pySliceTo_mem {x : Char} {n : Int} {l : List Char}
    (h : x ∈ pySliceTo n l) : x ∈ l := by
  unfold pySliceTo at h
  by_cases hn : 0 ≤ n
  · rw [if_pos hn] at h
    exact List.take_subset _ _ h
  · rw [if_neg hn] at h
    exact List.take_subset _ _ h

end Sanitize

namespace Sanitize

theorem alphaMention_space : ∀ c, pySpace c = true → alphaMention c = false := by
  intro c hc
  simp only [pySpace, Bool.or_eq_true, decide_eq_true_eq] at hc
  rcases hc with ((((rfl | rfl) | rfl) | rfl) | rfl) | rfl <;> decide

theorem alphaChannel_space : ∀ c, pySpace c = true → alphaChannel c = false := by
  intro c hc
  simp only [pySpace, Bool.or_eq_true, decide_eq_true_eq] at hc
  rcases hc with ((((rfl | rfl) | rfl) | rfl) | rfl) | rfl <;> decide

theorem alphaRole_space : ∀ c, pySpace c = true → alphaRole c = false := by
  intro c hc
  simp only [pySpace, Bool.or_eq_true, decide_eq_true_eq] at hc
  rcases hc with ((((rfl | rfl) | rfl) | rfl) | rfl) | rfl <;> decide

theorem quote_hf (P : Char → Bool) (hP : P '\'' = false) :
    ∀ c, (if c = '"' then '\'' else c) = c ∨
      ((if c = '"' then '\'' else c) ≠ '<' ∧ P (if c = '"' then '\'' else c) = false) := by
  intro c
  by_cases hq : c = '"'
  · right
    rw [if_pos hq]
    exact ⟨by decide, hP⟩
  · left
    rw [if_neg hq]

theorem nl_hf (P : Char → Bool) (hP : P ' ' = false) :
    ∀ c, (if c = '\n' || c = '\r' then ' ' else c) = c ∨
      ((if c = '\n' || c = '\r' then ' ' else c) ≠ '<' ∧
        P (if c = '\n' || c = '\r' then ' ' else c) = false) := by
  intro c
  by_cases hn : (c = '\n' || c = '\r') = true
  · right
    rw [if_pos hn]
    exact ⟨by decide, hP⟩
  · left
    rw [if_neg hn]

/-- The cleaned text contains no token of a shape `g` that (a) is removed
by its own regex pass inside `regexStages`, and (b) cannot be re-created by
the later stages. -/
theorem cleanedText_tok_lift (g : List Char → Prop) (P : Char → Bool)
    (hg : ∀ tail, g tail → ∀ c ∈ tail, P c = true)
    (hsp : ∀ c, pySpace c = true → P c = false)
    (hP2 : P ' ' = false)
    (content : List Char) (hbs : '\\' ∉ content) :
    containsTok g (cleanedText content) →
    containsTok g (quoteMap (regexStages content)) := by
  intro htok
  unfold cleanedText at htok
  have h1 : containsTok g (collapseWs (nlMap (dropBackslashes (quoteMap (regexStages content))))) :=
    containsTok_of_segment (pyStrip_segment _) htok
  have h2 : containsTok g (nlMap (dropBackslashes (quoteMap (regexStages content)))) :=
    collapse_tok_lift g P hg hsp _ false h1
  have h3 : containsTok g (dropBackslashes (quoteMap (regexStages content))) :=
    map_tok_lift g P hg _ (nl_hf P hP2) _ h2
  rw [dropBackslashes_id _
    (quoteMap_backslash_free _ (regexStages_backslash_free content hbs))] at h3
  exact h3

/-- Truncation cannot create a token of an alphabet without `.`. -/
theorem truncation_tok_lift (g : List Char → Prop) (P : Char → Bool)
    (hg : ∀ tail, g tail → ∀ c ∈ tail, P c = true)
    (hdot : P '.' = false)
    (maxLen : Int) (content : List Char) :
    containsTok g (sanitize_discord_message maxLen content) →
    containsTok g (cleanedText content) := by
  intro htok
  unfold sanitize_discord_message at htok
  by_cases hlen : ((cleanedText content).length : Int) > maxLen
  · rw [if_pos hlen] at htok
    have h1 : containsTok g (pySliceTo (maxLen - 3) (cleanedText content)) := by
      refine append_junk_tok_lift g P hg "...".data ?_ _ htok
      intro c hc
      rcases List.mem_cons.mp hc with rfl | hc2
      · exact ⟨hdot, by decide⟩
      rcases List.mem_cons.mp hc2 with rfl | hc3
      · exact ⟨hdot, by decide⟩
      rcases List.mem_singleton.mp hc3 with rfl
      exact ⟨hdot, by decide⟩
    have hseg : ∃ u v, cleanedText content = u ++ (pySliceTo (maxLen - 3) (cleanedText content) ++ v) := by
      unfold pySliceTo
      by_cases hn : 0 ≤ maxLen - 3
      · rw [if_pos hn]
        exact ⟨[], (cleanedText content).drop (maxLen - 3).toNat, by simp⟩
      · rw [if_neg hn]
        exact ⟨[], (cleanedText content).drop
          ((cleanedText content).length - (-(maxLen - 3)).toNat), by simp⟩
    exact containsTok_of_segment hseg h1
  · rw [if_neg hlen] at htok
    exact htok

end Sanitize

namespace Sanitize

/-- Lifting a surviving token back through the four regex passes, for any
token shape whose alphabet excludes the replacement heads. -/
theorem regexStages_tok_lift (g : List Char → Prop) (P : Char → Bool)
    (hg : ∀ tail, g tail → ∀ c ∈ tail, P c = true)
    (hPb : P '[' = false) (hPc : P ':' = false) (content : List Char) :
    containsTok g (regexStages content) → containsTok g content := by
  intro h
  unfold regexStages at h
  have h4 := reSub_tok_lift hg (mEmoji_hrep P hPc) le_rfl h
  unfold stage3 at h4
  have h5 := reSub_tok_lift hg (mRole_hrep P hPb) le_rfl h4
  unfold stage2 at h5
  have h6 := reSub_tok_lift hg (mChannel_hrep P hPb) le_rfl h5
  unfold stage1 at h6
  exact reSub_tok_lift hg (mMention_hrep P hPb) le_rfl h6

end Sanitize

/-- C6 counterexamples: (1) the input `<@\12>` contains no mention token
(the backslash splits it), yet after backslash removal the sanitiser's
output is exactly `<@12>` — a user-mention token; (2) the backslash-free
input `<<:ab:12>34>` yields the output `<:ab:34>`, a custom-emoji token
spliced together by the emoji replacement itself. -/
theorem claim_C6_counterexample :
    Sanitize.sanitize_discord_message 256 "<@\\12>".data = "<@12>".data ∧
    Sanitize.containsTok Sanitize.mentionTail
      (Sanitize.sanitize_discord_message 256 "<@\\12>".data) ∧
    Sanitize.sanitize_discord_message 256 "<<:ab:12>34>".data = "<:ab:34>".data ∧
    Sanitize.containsTok Sanitize.emojiTail
      (Sanitize.sanitize_discord_message 256 "<<:ab:12>34>".data) := by
  refine ⟨by decide, ?_, by decide, ?_⟩
  · refine ⟨[], '@' :: (([] : List Char) ++ ['1', '2'] ++ ['>']), [],
      ⟨[], ['1', '2'], Or.inl rfl, by decide, by decide, rfl⟩, by decide⟩
  · refine ⟨[], ([] : List Char) ++ ':' :: (['a', 'b'] ++ ':' :: (['3', '4'] ++ ['>'])), [],
      ⟨[], ['a', 'b'], ['3', '4'], Or.inl rfl, by decide, by decide, by decide,
        by decide, rfl⟩, by decide⟩

/-- C6 amended: for every input and configured maxLen, the sanitised
message contains no double quote, backslash, newline or carriage return,
and (for maxLen at least 3, which covers the default 256) its length is at
most maxLen; and for every input that contains no backslash, the output
contains no user-mention, channel-mention or role-mention token.  (The
original claim fails in two ways: backslash removal can splice the
surrounding text into a fresh mention token, and the emoji replacement
`:name:` can splice a fresh custom-emoji token even without backslashes.) -/
theorem claim_C6_sanitizer_amended (maxLen : Int) (content : List Char) :
    '"' ∉ Sanitize.sanitize_discord_message maxLen content ∧
    '\\' ∉ Sanitize.sanitize_discord_message maxLen content ∧
    '\n' ∉ Sanitize.sanitize_discord_message maxLen content ∧
    '\r' ∉ Sanitize.sanitize_discord_message maxLen content ∧
    (3 ≤ maxLen →
      ((Sanitize.sanitize_discord_message maxLen content).length : Int) ≤ maxLen) ∧
    ('\\' ∉ content →
      ¬ Sanitize.containsTok Sanitize.mentionTail
          (Sanitize.sanitize_discord_message maxLen content) ∧
      ¬ Sanitize.containsTok Sanitize.channelTail
          (Sanitize.sanitize_discord_message maxLen content) ∧
      ¬ Sanitize.containsTok Sanitize.roleTail
          (Sanitize.sanitize_discord_message maxLen content)) := by
  have hnl_pres : ∀ (x : Char) (l : List Char), x ≠ ' ' → x ∉ l →
      x ∉ Sanitize.nlMap l := by
    intro x l hx hxl hmem
    obtain ⟨c, hc, hfc⟩ := List.mem_map.mp hmem
    by_cases hn : (c = '\n' || c = '\r') = true
    · rw [if_pos hn] at hfc
      exact hx hfc.symm
    · rw [if_neg hn] at hfc
      exact hxl (hfc ▸ hc)
  have hc8absent : ∀ (x : Char), x ≠ ' ' → x ≠ '.' →
      x ∉ Sanitize.nlMap (Sanitize.dropBackslashes
        (Sanitize.quoteMap (Sanitize.regexStages content))) →
      x ∉ Sanitize.sanitize_discord_message maxLen content := by
    intro x hxsp hxdot hx7 hmem
    have hc8 : x ∉ Sanitize.cleanedText content := by
      intro hm
      have hm2 := Sanitize.pyStrip_mem hm
      rcases Sanitize.collapse_mem x _ false hm2 with rfl | hin
      · exact hxsp rfl
      · exact hx7 hin
    unfold Sanitize.sanitize_discord_message at hmem
    by_cases hlen : ((Sanitize.cleanedText content).length : Int) > maxLen
    · rw [if_pos hlen] at hmem
      rcases List.mem_append.mp hmem with hm | hm
      · exact hc8 (Sanitize.pySliceTo_mem hm)
      · rcases List.mem_cons.mp hm with rfl | hm2
        · exact hxdot rfl
        rcases List.mem_cons.mp hm2 with rfl | hm3
        · exact hxdot rfl
        rcases List.mem_singleton.mp hm3 with rfl
        exact hxdot rfl
    · rw [if_neg hlen] at hmem
      exact hc8 hmem
  have hquote_out : ∀ (l : List Char), '"' ∉ Sanitize.quoteMap l := by
    intro l hmem
    obtain ⟨c, _, hfc⟩ := List.mem_map.mp hmem
    by_cases hq : c = '"'
    · rw [if_pos hq] at hfc
      exact absurd hfc (by decide)
    · rw [if_neg hq] at hfc
      exact hq hfc
  have hbs_out : ∀ (l : List Char), '\\' ∉ Sanitize.dropBackslashes l := by
    intro l hmem
    unfold Sanitize.dropBackslashes at hmem
    have hp := List.of_mem_filter hmem
    simp at hp
  have hnl_out : ∀ (x : Char) (l : List Char), x ≠ ' ' → (x = '\n' ∨ x = '\r') →
      x ∉ Sanitize.nlMap l := by
    intro x l hxsp hxnl hmem
    obtain ⟨c, hc, hfc⟩ := List.mem_map.mp hmem
    by_cases hn : (c = '\n' || c = '\r') = true
    · rw [if_pos hn] at hfc
      exact hxsp hfc.symm
    · rw [if_neg hn] at hfc
      subst hfc
      rcases hxnl with rfl | rfl
      · simp at hn
      · simp at hn
  refine ⟨?_, ?_, ?_, ?_, ?_, ?_⟩
  · exact hc8absent '"' (by decide) (by decide)
      (hnl_pres '"' _ (by decide)
        (fun hm => hquote_out _ (List.mem_of_mem_filter hm)))
  · exact hc8absent '\\' (by decide) (by decide)
      (hnl_pres '\\' _ (by decide) (hbs_out _))
  · exact hc8absent '\n' (by decide) (by decide)
      (hnl_out '\n' _ (by decide) (Or.inl rfl))
  · exact hc8absent '\r' (by decide) (by decide)
      (hnl_out '\r' _ (by decide) (Or.inr rfl))
  · intro h3
    unfold Sanitize.sanitize_discord_message
    by_cases hlen : ((Sanitize.cleanedText content).length : Int) > maxLen
    · rw [if_pos hlen, List.length_append]
      unfold Sanitize.pySliceTo
      rw [if_pos (show (0 : Int) ≤ maxLen - 3 by omega)]
      have hd : ("...".data).length = 3 := by decide
      have ht : (List.take (maxLen - 3).toNat (Sanitize.cleanedText content)).length ≤
          (maxLen - 3).toNat := by
        rw [List.length_take]
        exact min_le_left _ _
      rw [hd]
      omega
    · rw [if_neg hlen]
      exact le_of_not_lt hlen
  · intro hbs
    refine ⟨?_, ?_, ?_⟩
    · intro htok
      have h1 := Sanitize.truncation_tok_lift _ Sanitize.alphaMention
        Sanitize.mentionTail_alpha (by decide) maxLen content htok
      have h2 := Sanitize.cleanedText_tok_lift _ Sanitize.alphaMention
        Sanitize.mentionTail_alpha Sanitize.alphaMention_space (by decide)
        content hbs h1
      have h3 := Sanitize.map_tok_lift _ Sanitize.alphaMention
        Sanitize.mentionTail_alpha _
        (Sanitize.quote_hf Sanitize.alphaMention (by decide)) _ h2
      unfold Sanitize.regexStages at h3
      have h4 := Sanitize.reSub_tok_lift Sanitize.mentionTail_alpha
        (Sanitize.mEmoji_hrep Sanitize.alphaMention (by decide)) le_rfl h3
      unfold Sanitize.stage3 at h4
      have h5 := Sanitize.reSub_tok_lift Sanitize.mentionTail_alpha
        (Sanitize.mRole_hrep Sanitize.alphaMention (by decide)) le_rfl h4
      unfold Sanitize.stage2 at h5
      have h6 := Sanitize.reSub_tok_lift Sanitize.mentionTail_alpha
        (Sanitize.mChannel_hrep Sanitize.alphaMention (by decide)) le_rfl h5
      unfold Sanitize.stage1 at h6
      exact Sanitize.sub_mentions_clean content h6
    · intro htok
      have h1 := Sanitize.truncation_tok_lift _ Sanitize.alphaChannel
        Sanitize.channelTail_alpha (by decide) maxLen content htok
      have h2 := Sanitize.cleanedText_tok_lift _ Sanitize.alphaChannel
        Sanitize.channelTail_alpha Sanitize.alphaChannel_space (by decide)
        content hbs h1
      have h3 := Sanitize.map_tok_lift _ Sanitize.alphaChannel
        Sanitize.channelTail_alpha _
        (Sanitize.quote_hf Sanitize.alphaChannel (by decide)) _ h2
      unfold Sanitize.regexStages at h3
      have h4 := Sanitize.reSub_tok_lift Sanitize.channelTail_alpha
        (Sanitize.mEmoji_hrep Sanitize.alphaChannel (by decide)) le_rfl h3
      unfold Sanitize.stage3 at h4
      have h5 := Sanitize.reSub_tok_lift Sanitize.channelTail_alpha
        (Sanitize.mRole_hrep Sanitize.alphaChannel (by decide)) le_rfl h4
      unfold Sanitize.stage2 at h5
      exact Sanitize.sub_channels_clean (Sanitize.stage1 content) h5
    · intro htok
      have h1 := Sanitize.truncation_tok_lift _ Sanitize.alphaRole
        Sanitize.roleTail_alpha (by decide) maxLen content htok
      have h2 := Sanitize.cleanedText_tok_lift _ Sanitize.alphaRole
        Sanitize.roleTail_alpha Sanitize.alphaRole_space (by decide)
        content hbs h1
      have h3 := Sanitize.map_tok_lift _ Sanitize.alphaRole
        Sanitize.roleTail_alpha _
        (Sanitize.quote_hf Sanitize.alphaRole (by decide)) _ h2
      unfold Sanitize.regexStages at h3
      have h4 := Sanitize.reSub_tok_lift Sanitize.roleTail_alpha
        (Sanitize.mEmoji_hrep Sanitize.alphaRole (by decide)) le_rfl h3
      unfold Sanitize.stage3 at h4
      exact Sanitize.sub_roles_clean (Sanitize.stage2 content) h4

/-- Witness for the amended C6 at a concrete input: a backslash-free
message within the default length keeps its length bound and contains no
user-mention token after sanitising. -/
theorem claim_C6_sanitizer_amended_witness :
    ((Sanitize.sanitize_discord_message 256 "hi <@123> there".data).length : Int) ≤ 256 ∧
    ¬ Sanitize.containsTok Sanitize.mentionTail
        (Sanitize.sanitize_discord_message 256 "hi <@123> there".data) := by
  have h := claim_C6_sanitizer_amended 256 "hi <@123> there".data
  exact ⟨h.2.2.2.2.1 (by decide), (h.2.2.2.2.2 (by decide)).1⟩
